import Mathlib

/-!
Verification of the Engine One SAML-config validator
(src/netlify/functions/netlifyProxy.js, validator half):
XOR response envelope, schema validation, normalization, audit rules,
and the mode dispatcher.

The embedding models JSON values (including the JavaScript `undefined`
that property reads can produce), the exported `handler`, and the helper
functions `ok`, `fail`, `errItem`, `normalizeSamlConfig`,
`auditSamlConfig`, the compiled `SAML_CONFIG_SCHEMA` / `ENVELOPE_SCHEMA`
checks, and `parseBody`.  Functions that can raise a TypeError in
JavaScript return `Option` values, with `none` marking the thrown
exception.
-/

/-- A JavaScript/JSON value.  `undef` is JavaScript's `undefined`; it can
appear as the result of reading an absent property and as the value
stored by `{...d, domain}` when `d.domain` is absent.  Numbers carry a
rational payload; the validator never computes with numbers, it only
stores and compares them. -/
inductive Json where
  | undef : Json
  | null : Json
  | bool : Bool → Json
  | num : Rat → Json
  | str : String → Json
  | arr : List Json → Json
  | obj : List (String × Json) → Json
deriving Repr

/-- JavaScript truthiness of a value. -/
def Json.truthy : Json → Bool
  | .undef => false
  | .null => false
  | .bool b => b
  | .num q => q != 0
  | .str s => s != ""
  | .arr _ => true
  | .obj _ => true

/-- JavaScript `typeof`. -/
def Json.typeOf : Json → String
  | .undef => "undefined"
  | .null => "object"
  | .bool _ => "boolean"
  | .num _ => "number"
  | .str _ => "string"
  | .arr _ => "object"
  | .obj _ => "object"

/-- First binding of key `k` in an object's field list (JavaScript objects
cannot hold duplicate keys, so the first binding is the binding). -/
def lookupF : List (String × Json) → String → Option Json
  | [], _ => none
  | (k', v) :: rest, k => if k' = k then some v else lookupF rest k

/-- Field read on a field list: absent keys read as `undefined`. -/
def jgetF (fs : List (String × Json)) (k : String) : Json :=
  match lookupF fs k with
  | some v => v
  | none => Json.undef

/-- Property read `j.k` in the cases where it cannot throw: objects give
the stored value (or `undefined`), every other non-nullish value gives
`undefined` (the validator only reads fixed non-index, non-prototype
names such as "saml" or "domain").  Reading on `null`/`undefined` throws
and is handled separately by `getProp?`. -/
def jget : Json → String → Json
  | .obj fs, k => jgetF fs k
  | _, _ => Json.undef

/-- Property read `j.k` with the JavaScript TypeError on nullish bases
made explicit as `none`. -/
def getProp? : Json → String → Option Json
  | .null, _ => none
  | .undef, _ => none
  | j, k => some (jget j k)

/-- Property write on a field list: overwrite the first binding in place
(JavaScript keeps the position of an existing property) or append. -/
def setField : List (String × Json) → String → Json → List (String × Json)
  | [], k, v => [(k, v)]
  | (k', v') :: rest, k, v =>
    if k' = k then (k, v) :: rest else (k', v') :: setField rest k v

/-- Property write `j.k = v`; in the translated code every reached write
targets an actual object, so other values pass through unchanged. -/
def setProp (j : Json) (k : String) (v : Json) : Json :=
  match j with
  | .obj fs => .obj (setField fs k v)
  | x => x

/-- Is this value `undefined`?  (Ajv treats a property stored with value
`undefined` exactly like an absent property for `required` and for
per-property schemas.) -/
def isUndef : Json → Bool
  | .undef => true
  | _ => false

/-- Is key `k` present on the field list in the Ajv sense, i.e. bound to
a value other than `undefined`? -/
def presentF (fs : List (String × Json)) (k : String) : Bool :=
  !(isUndef (jgetF fs k))

/-- JavaScript whitespace, as recognized by `String.prototype.trim`:
ASCII blanks, NBSP, BOM, and the Unicode space separators plus the two
line separators. -/
def isJsWhite (c : Char) : Bool :=
  c.toNat = 32 || c.toNat = 9 || c.toNat = 10 || c.toNat = 11 ||
  c.toNat = 12 || c.toNat = 13 || c.toNat = 160 || c.toNat = 5760 ||
  (8192 ≤ c.toNat && c.toNat ≤ 8202) || c.toNat = 8232 ||
  c.toNat = 8233 || c.toNat = 8239 || c.toNat = 8287 ||
  c.toNat = 12288 || c.toNat = 65279

/-- Drop trailing characters satisfying `p`. -/
def dropEndWhile (p : Char → Bool) (l : List Char) : List Char :=
  (l.reverse.dropWhile p).reverse

/-- Character list of `String.prototype.trim`. -/
def trimList (l : List Char) : List Char :=
  dropEndWhile isJsWhite (l.dropWhile isJsWhite)

/-- `String.prototype.trim`. -/
def trimJS (s : String) : String :=
  ⟨trimList s.data⟩

/-- One character of `String.prototype.toLowerCase`, on the ASCII
fragment the validator's inputs exercise (the engine's mapping on
letters outside A–Z is not needed by any claim). -/
def lowerChar (c : Char) : Char :=
  if 65 ≤ c.toNat ∧ c.toNat ≤ 90 then Char.ofNat (c.toNat + 32) else c

/-- `String.prototype.toLowerCase` (ASCII fragment). -/
def lowerJS (s : String) : String :=
  ⟨s.data.map lowerChar⟩

/-- Decimal digit character for `d < 10`. -/
def digitChar10 (d : Nat) : Char :=
  Char.ofNat (48 + d)

/-- Decimal numeral, as JavaScript prints array indices ("0", "1", ...). -/
def decimalStr (n : Nat) : List Char :=
  if n < 10 then [digitChar10 n]
  else decimalStr (n / 10) ++ [digitChar10 (n % 10)]
  decreasing_by exact Nat.div_lt_self (by omega) (by omega)

/-- `String(x)`: JavaScript string coercion.  Arrays join the coercion of
their elements with "," (nullish elements become empty); plain objects
print as "[object Object]".  Number printing follows the rational
payload. -/
def jsToString : Json → String
  | .undef => "undefined"
  | .null => "null"
  | .bool true => "true"
  | .bool false => "false"
  | .num q => toString q
  | .str s => s
  | .arr xs => ",".intercalate (jsToString.elems xs)
  | .obj _ => "[object Object]"
where
  /-- Element coercion of the array join: nullish elements print empty. -/
  elems : List Json → List String
  | [] => []
  | Json.null :: rest => "" :: elems rest
  | Json.undef :: rest => "" :: elems rest
  | y :: rest => jsToString y :: elems rest

/-! ## The normalizer (`normalizeSamlConfig`)

The source first takes a `structuredClone` of the payload; on pure
values the clone is the identity, so the translation rebuilds the value
functionally.  `none` marks the TypeError thrown when a `domains` array
element is `null`/`undefined` (reading `d.domain` on it) or when the
payload itself is nullish (reading `out.domains`). -/

/-- `x => (typeof x === "string" ? x.trim() : x)` from the `names` map. -/
def trimIfStr : Json → Json
  | .str s => .str (trimJS s)
  | x => x

/-- `{...d, domain}`: object spread of a domain entry followed by the
`domain` key.  For a non-object `d` the spread copies the own enumerable
properties (array/string indices), and the result is a fresh object; the
`domain` key lands after the index keys, matching JavaScript's
integer-first property order. -/
def spreadSetDomain (d : Json) (v : Json) : Json :=
  match d with
  | .obj fs => .obj (setField fs "domain" v)
  | .arr xs =>
    .obj ((xs.enum.map fun p => (String.mk (decimalStr p.1), p.2)) ++ [("domain", v)])
  | .str s =>
    .obj ((s.data.enum.map fun p =>
      (String.mk (decimalStr p.1), Json.str (String.mk [p.2]))) ++ [("domain", v)])
  | _ => .obj [("domain", v)]

/-- Body of `out.domains.map((d) => ...)`: reading `d.domain` throws on a
nullish `d`; a string value is trimmed and lowercased, anything else
passes through; the result is `{...d, domain}`. -/
def normDomainItem (d : Json) : Option Json :=
  match getProp? d "domain" with
  | none => none
  | some dv =>
    let v := match dv with
      | .str s => Json.str (lowerJS (trimJS s))
      | x => x
    some (spreadSetDomain d v)

/-- `out.saml && typeof out.saml.f === "string"` guarded trim of one of
the two metadata string fields. -/
def updSamlStr (p : Json) (f : String) : Json :=
  let s := jget p "saml"
  if s.truthy then
    match jget s f with
    | .str v => setProp p "saml" (setProp s f (.str (trimJS v)))
    | _ => p
  else p

/-- Per-entry body of the attribute-mapping keys loop: trim-and-prune the
`names` list when it is an array (dropping entries that trim to a falsy
value, via `.filter(Boolean)`), then trim `name` when it is a string. -/
def normRuleEntry (m : Json) : Json :=
  let m1 := if m.truthy then
      match jget m "names" with
      | .arr l => setProp m "names" (.arr ((l.map trimIfStr).filter Json.truthy))
      | _ => m
    else m
  match jget m1 "name" with
  | .str s => setProp m1 "name" (.str (trimJS s))
  | _ => m1

/-- The keys container transformed by the loop: `Object.keys` iteration
covers an object's own keys, or an array's indices. -/
def normKeysVal : Json → Json
  | .obj fs => .obj (fs.map fun kv => (kv.1, normRuleEntry kv.2))
  | .arr xs => .arr (xs.map normRuleEntry)
  | x => x

/-- Write back `out.saml.attribute_mapping.keys`; only reached when the
chain `out?.saml?.attribute_mapping?.keys` passed through objects. -/
def setKeysPath (p : Json) (nk : Json) : Json :=
  let s := jget p "saml"
  let am := jget s "attribute_mapping"
  setProp p "saml" (setProp s "attribute_mapping" (setProp am "keys" nk))

/-- `keys && typeof keys === "object"`. -/
def isObjLike (j : Json) : Bool :=
  j.truthy && (j.typeOf == "object")

/-- First block of the normalizer: the `domains` map (reading
`out.domains` throws on a nullish payload). -/
def normDomains (p : Json) : Option Json :=
  match getProp? p "domains" with
  | none => none
  | some doms =>
    match doms with
    | .arr ds => (ds.mapM normDomainItem).map fun ds' => setProp p "domains" (.arr ds')
    | _ => some p

/-- Second block: the two guarded metadata trims, `metadata_url` then
`metadata_xml`. -/
def normMeta (p : Json) : Json :=
  updSamlStr (updSamlStr p "metadata_url") "metadata_xml"

/-- Third block: the attribute-mapping keys loop, guarded by
`keys && typeof keys === "object"`. -/
def normKeys (p : Json) : Json :=
  let kv := jget (jget (jget p "saml") "attribute_mapping") "keys"
  if isObjLike kv then setKeysPath p (normKeysVal kv) else p

/-- `normalizeSamlConfig` from the source: clone, lowercase/trim the
domain of each domain binding, trim the metadata strings, and
trim/prune each attribute-mapping rule.  `none` is the propagated
TypeError. -/
def normalizeSamlConfig (p : Json) : Option Json :=
  (normDomains p).map fun p1 => normKeys (normMeta p1)

/-! ## Format checkers

`ajv-formats` supplies the "date-time" and "uri" checkers referenced by
`SAML_CONFIG_SCHEMA`; the library is an external dependency, so its
checkers are modelled here: "date-time" as an RFC 3339 timestamp and
"uri" as a scheme-prefixed absolute URI over the RFC 3986 character
set.  No claim depends on the fine structure of either format. -/

/-- Is `c` an ASCII digit? -/
def isDigitCh (c : Char) : Bool :=
  48 ≤ c.toNat && c.toNat ≤ 57

/-- Numeric value of a two-digit pair. -/
def twoDigits (a b : Char) : Nat :=
  (a.toNat - 48) * 10 + (b.toNat - 48)

/-- Days in a month of the (leap-aware) Gregorian calendar. -/
def daysInMonth (y m : Nat) : Nat :=
  if m = 2 then
    if y % 4 = 0 && (y % 100 != 0 || y % 400 = 0) then 29 else 28
  else if m = 4 || m = 6 || m = 9 || m = 11 then 30
  else 31

/-- Time-offset tail of an RFC 3339 timestamp. -/
def validOffset : List Char → Bool
  | ['Z'] => true
  | ['z'] => true
  | [sg, h1, h2, ':', m1, m2] =>
    (sg = '+' || sg = '-') && [h1, h2, m1, m2].all isDigitCh &&
    twoDigits h1 h2 ≤ 23 && twoDigits m1 m2 ≤ 59
  | _ => false

/-- Optional fraction followed by the offset, after the seconds. -/
def validDateTimeTail : List Char → Bool
  | '.' :: rest =>
    (rest.takeWhile isDigitCh).length ≥ 1 && validOffset (rest.dropWhile isDigitCh)
  | l => validOffset l

/-- Modelled "date-time" format: RFC 3339 `full-date "T" full-time`. -/
def isDateTimeFmt (s : String) : Bool :=
  match s.data with
  | y1 :: y2 :: y3 :: y4 :: '-' :: mo1 :: mo2 :: '-' :: d1 :: d2 :: t ::
      h1 :: h2 :: ':' :: mi1 :: mi2 :: ':' :: s1 :: s2 :: rest =>
    [y1, y2, y3, y4, mo1, mo2, d1, d2, h1, h2, mi1, mi2, s1, s2].all isDigitCh &&
    (t = 'T' || t = 't' || t = ' ') &&
    1 ≤ twoDigits mo1 mo2 && twoDigits mo1 mo2 ≤ 12 &&
    1 ≤ twoDigits d1 d2 &&
    twoDigits d1 d2 ≤ daysInMonth
      (((y1.toNat - 48) * 10 + (y2.toNat - 48)) * 100 + twoDigits y3 y4)
      (twoDigits mo1 mo2) &&
    twoDigits h1 h2 ≤ 23 && twoDigits mi1 mi2 ≤ 59 && twoDigits s1 s2 ≤ 60 &&
    validDateTimeTail rest
  | _ => false

/-- A character allowed in a URI scheme after the leading letter. -/
def isSchemeCh (c : Char) : Bool :=
  c.isAlpha || isDigitCh c || c = '+' || c = '-' || c = '.'

/-- A character allowed in the rest of a URI (unreserved, reserved, or
percent sign). -/
def isUriCh (c : Char) : Bool :=
  c.isAlphanum || c = '-' || c = '.' || c = '_' || c = '~' || c = ':' ||
  c = '/' || c = '?' || c = '#' || c = '[' || c = ']' || c = '@' ||
  c = '!' || c = '$' || c = '&' || c = '*' || c = '+' || c = ',' ||
  c = ';' || c = '=' || c = '%' || c = '(' || c = ')' || c = Char.ofNat 39

/-- Modelled "uri" format: `scheme ":" hier-part` with a non-empty
hier-part over the URI character set. -/
def isUriFmt (s : String) : Bool :=
  match s.data with
  | c :: rest =>
    c.isAlpha &&
    (let scheme := rest.takeWhile isSchemeCh
     match rest.drop scheme.length with
     | ':' :: tail => tail.length ≥ 1 && tail.all isUriCh
     | _ => false)
  | [] => false

/-- Modelled scheme extraction of the WHATWG `URL` constructor (used by
`auditSamlConfig`): leading/trailing whitespace stripped, a scheme of the
shape `ALPHA *( ALPHA / DIGIT / "+" / "-" / "." )` followed by ":", and
the returned `protocol` is the lowercased scheme with the colon.  `none`
models the constructor throwing. -/
def urlProtocol (s : String) : Option String :=
  match (trimJS s).data with
  | c :: rest =>
    if c.isAlpha then
      let scheme := rest.takeWhile isSchemeCh
      match rest.drop scheme.length with
      | ':' :: _ => some (lowerJS (String.mk (c :: scheme)) ++ ":")
      | _ => none
    else none
  | [] => none

/-! ## Contract envelope and responses -/

/-- `errItem({domain, location, locationType, message, reason})`. -/
structure ErrItem where
  domain : String
  location : String
  locationType : String
  message : String
  reason : String
deriving Repr

/-- JSON form of an error item inside a failure body. -/
def errItemJson (e : ErrItem) : Json :=
  .obj [("domain", .str e.domain), ("location", .str e.location),
        ("locationType", .str e.locationType), ("message", .str e.message),
        ("reason", .str e.reason)]

/-- An HTTP response as the Netlify function returns it.  `body` is kept
as the JSON value handed to `JSON.stringify` (the OPTIONS branch, which
returns a literal empty string, is modelled as the string value `""`). -/
structure Response where
  statusCode : Nat
  headers : List (String × String)
  body : Json
deriving Repr

/-- The module-level `cors` header object. -/
def cors : List (String × String) :=
  [("Access-Control-Allow-Origin", "*"),
   ("Access-Control-Allow-Headers", "Content-Type, Authorization"),
   ("Access-Control-Allow-Methods", "GET, POST, OPTIONS")]

/-- `res(statusCode, body)`. -/
def res (statusCode : Nat) (body : Json) : Response :=
  ⟨statusCode, ("Content-Type", "application/json") :: cors, body⟩

/-- The `ok` envelope constructor: `res(200, { result: resultArray })`. -/
def ok (resultArray : List Json) : Response :=
  res 200 (.obj [("result", .arr resultArray)])

/-- The `fail` envelope constructor:
`res(code, { error: { code, status, message, errors } })`, with `errors`
defaulting to the empty list at the call sites that omit it. -/
def fail (code : Nat) (status message : String) (errors : List ErrItem) : Response :=
  res code (.obj [("error", .obj
    [("code", .num (code : Rat)), ("status", .str status),
     ("message", .str message), ("errors", .arr (errors.map errItemJson))])])

/-! ## `SAML_CONFIG_SCHEMA`, compiled

The Ajv-compiled checker is translated clause by clause into a boolean
validity function.  Ajv semantics used: `required` and per-property
schemas treat a property stored as `undefined` like an absent one;
`additionalProperties: false` rejects any enumerated key outside the
declared set; `type: "object"` excludes arrays and null. -/

/-- `{ type: "string", minLength: 1 }`. -/
def vStr1 : Json → Bool
  | .str s => s.length ≥ 1
  | _ => false

/-- `{ type: "string", format: "date-time" }`. -/
def vDateTime : Json → Bool
  | .str s => isDateTimeFmt s
  | _ => false

/-- `{ type: "string", format: "uri" }` (the `metadata_url` property). -/
def vUri : Json → Bool
  | .str s => isUriFmt s
  | _ => false

/-- `{ type: "boolean" }`. -/
def vBool : Json → Bool
  | .bool _ => true
  | _ => false

/-- `{ type: "array", items: { type: "string" } }`. -/
def vStrArr : Json → Bool
  | .arr xs => xs.all fun x => match x with | .str _ => true | _ => false
  | _ => false

/-- The closed `oneOf` union allowed for a rule's `default`. -/
def vDefault (j : Json) : Bool :=
  (((match j with | .null => true | _ => false) : Bool).toNat +
   ((match j with | .num _ => true | _ => false) : Bool).toNat +
   ((match j with | .str _ => true | _ => false) : Bool).toNat +
   ((match j with | .bool _ => true | _ => false) : Bool).toNat +
   (vStrArr j).toNat) = 1

/-- `names: { type: "array", minItems: 1, items: {type: "string", minLength: 1} }`. -/
def vNames : Json → Bool
  | .arr xs => xs.length ≥ 1 && xs.all vStr1
  | _ => false

/-- Declared properties of an attribute-mapping rule. -/
def ruleKeys : List String := ["name", "names", "default", "array"]

/-- Per-property schema of an attribute-mapping rule. -/
def rulePropOk (k : String) (v : Json) : Bool :=
  if k = "name" then vStr1 v
  else if k = "names" then vNames v
  else if k = "default" then vDefault v
  else vBool v

/-- One attribute-mapping rule: closed object with `name`, `names`,
`array` required. -/
def vRule : Json → Bool
  | .obj fs =>
    (fs.all fun kv => ruleKeys.contains kv.1 && (isUndef kv.2 || rulePropOk kv.1 kv.2)) &&
    presentF fs "name" && presentF fs "names" && presentF fs "array"
  | _ => false

/-- `attribute_mapping.keys`: object with at least one property, every
property an attribute-mapping rule. -/
def vKeys : Json → Bool
  | .obj fs => fs.length ≥ 1 && fs.all fun kv => isUndef kv.2 || vRule kv.2
  | _ => false

/-- `attribute_mapping`: closed object requiring `keys`. -/
def vAttrMapping : Json → Bool
  | .obj fs =>
    (fs.all fun kv => kv.1 = "keys" && (isUndef kv.2 || vKeys kv.2)) &&
    presentF fs "keys"
  | _ => false

/-- The four legal `name_id_format` values. -/
def nameIdFormats : List String :=
  ["urn:oasis:names:tc:SAML:1.1:nameid-format:unspecified",
   "urn:oasis:names:tc:SAML:2.0:nameid-format:transient",
   "urn:oasis:names:tc:SAML:1.1:nameid-format:emailAddress",
   "urn:oasis:names:tc:SAML:2.0:nameid-format:persistent"]

/-- `name_id_format`: string drawn from the enum. -/
def vNameId : Json → Bool
  | .str s => nameIdFormats.contains s
  | _ => false

/-- Declared properties of the `saml` block. -/
def samlKeys : List String :=
  ["id", "entity_id", "metadata_url", "metadata_xml", "attribute_mapping",
   "name_id_format"]

/-- Per-property schema of the `saml` block. -/
def samlPropOk (k : String) (v : Json) : Bool :=
  if k = "id" then vStr1 v
  else if k = "entity_id" then vStr1 v
  else if k = "metadata_url" then vUri v
  else if k = "metadata_xml" then vStr1 v
  else if k = "attribute_mapping" then vAttrMapping v
  else vNameId v

/-- The `oneOf` clause on the `saml` block: exactly one arm of
`{required: [metadata_url], not: {required: [metadata_xml]}}` /
`{required: [metadata_xml], not: {required: [metadata_url]}}` matches. -/
def metaOneOf (fs : List (String × Json)) : Bool :=
  ((presentF fs "metadata_url" && !presentF fs "metadata_xml") : Bool).toNat +
  ((presentF fs "metadata_xml" && !presentF fs "metadata_url") : Bool).toNat = 1

/-- The `saml` block schema. -/
def vSaml : Json → Bool
  | .obj fs =>
    (fs.all fun kv => samlKeys.contains kv.1 && (isUndef kv.2 || samlPropOk kv.1 kv.2)) &&
    presentF fs "id" && presentF fs "entity_id" &&
    presentF fs "attribute_mapping" && presentF fs "name_id_format" &&
    metaOneOf fs
  | _ => false

/-- Declared properties of a domain binding. -/
def domainKeys : List String := ["id", "domain", "created_at", "updated_at"]

/-- Per-property schema of a domain binding. -/
def domainPropOk (k : String) (v : Json) : Bool :=
  if k = "id" then vStr1 v
  else if k = "domain" then vStr1 v
  else vDateTime v

/-- One domain binding: closed object with all four properties required. -/
def vDomainItem : Json → Bool
  | .obj fs =>
    (fs.all fun kv => domainKeys.contains kv.1 && (isUndef kv.2 || domainPropOk kv.1 kv.2)) &&
    presentF fs "id" && presentF fs "domain" &&
    presentF fs "created_at" && presentF fs "updated_at"
  | _ => false

/-- `domains`: non-empty array of domain bindings. -/
def vDomains : Json → Bool
  | .arr xs => xs.length ≥ 1 && xs.all vDomainItem
  | _ => false

/-- Declared top-level properties of a SAML config. -/
def topKeys : List String := ["id", "saml", "domains", "created_at", "updated_at"]

/-- Per-property schema of the config root. -/
def topPropOk (k : String) (v : Json) : Bool :=
  if k = "id" then vStr1 v
  else if k = "saml" then vSaml v
  else if k = "domains" then vDomains v
  else vDateTime v

/-- `validateSaml = ajv.compile(SAML_CONFIG_SCHEMA)`: the boolean verdict. -/
def validateSaml : Json → Bool
  | .obj fs =>
    (fs.all fun kv => topKeys.contains kv.1 && (isUndef kv.2 || topPropOk kv.1 kv.2)) &&
    presentF fs "id" && presentF fs "saml" && presentF fs "domains" &&
    presentF fs "created_at" && presentF fs "updated_at"
  | _ => false

/-! ## `ENVELOPE_SCHEMA`, compiled -/

/-- The success arm: closed object requiring `result`, an array of
objects. -/
def vResultArm : Json → Bool
  | .obj fs =>
    (fs.all fun kv => kv.1 = "result" &&
      (isUndef kv.2 ||
        (match kv.2 with
         | .arr xs => xs.all fun x => match x with | .obj _ => true | _ => false
         | _ => false))) &&
    presentF fs "result"
  | _ => false

/-- A structured error item inside an `ErrorDetail`. -/
def vEnvErrItem : Json → Bool
  | .obj fs =>
    (fs.all fun kv =>
      (kv.1 = "domain" || kv.1 = "location" || kv.1 = "locationType" ||
       kv.1 = "message" || kv.1 = "reason") &&
      (isUndef kv.2 || (match kv.2 with | .str _ => true | _ => false))) &&
    presentF fs "domain" && presentF fs "location" && presentF fs "locationType" &&
    presentF fs "message" && presentF fs "reason"
  | _ => false

/-- The structured `error` object arm. -/
def vErrorDetail : Json → Bool
  | .obj fs =>
    (fs.all fun kv =>
      (kv.1 = "code" || kv.1 = "errors" || kv.1 = "message" || kv.1 = "status") &&
      (isUndef kv.2 ||
        (if kv.1 = "code" then (match kv.2 with | .num _ => true | _ => false)
         else if kv.1 = "errors" then
           (match kv.2 with | .arr xs => xs.all vEnvErrItem | _ => false)
         else (match kv.2 with | .str _ => true | _ => false)))) &&
    presentF fs "code" && presentF fs "errors" && presentF fs "message" &&
    presentF fs "status"
  | _ => false

/-- `error` is either a plain string or a structured detail — `oneOf`. -/
def vErrorVal (j : Json) : Bool :=
  ((match j with | .str _ => true | _ => false) : Bool).toNat +
  (vErrorDetail j).toNat = 1

/-- The failure arm: closed object requiring `error`. -/
def vErrorArm : Json → Bool
  | .obj fs =>
    (fs.all fun kv => kv.1 = "error" && (isUndef kv.2 || vErrorVal kv.2)) &&
    presentF fs "error"
  | _ => false

/-- `validateEnvelope = ajv.compile(ENVELOPE_SCHEMA)`: top-level `oneOf`
of the success and failure arms. -/
def validateEnvelope (j : Json) : Bool :=
  (vResultArm j).toNat + (vErrorArm j).toNat = 1

/-! ## The audit engine (`auditSamlConfig`) -/

/-- One read-only audit finding. -/
structure Finding where
  severity : String
  code : String
  message : String
  location : String
deriving Repr

/-- `sub` occurs inside `l` (character-list form of `String.includes`). -/
def includesList (l sub : List Char) : Bool :=
  sub.isPrefixOf l ||
    (match l with
     | [] => false
     | _ :: rest => includesList rest sub)

/-- `s.includes(sub)` for strings. -/
def strIncludes (s sub : String) : Bool :=
  includesList s.data sub.data

/-- `d.domain.split(".")` — JavaScript `String.prototype.split` with the
single-character separator ".". -/
def splitDot : List Char → List (List Char)
  | [] => [[]]
  | c :: rest =>
    match splitDot rest with
    | [] => [[c]]
    | h :: t => if c = '.' then [] :: h :: t else (c :: h) :: t

/-- The `METADATA_URL_NOT_HTTPS` finding. -/
def notHttpsFinding : Finding :=
  ⟨"high", "METADATA_URL_NOT_HTTPS", "metadata_url should be https to avoid MITM.",
   "payload.saml.metadata_url"⟩

/-- The `METADATA_URL_INVALID` finding. -/
def badUrlFinding : Finding :=
  ⟨"high", "METADATA_URL_INVALID", "metadata_url is not a valid URI.",
   "payload.saml.metadata_url"⟩

/-- The `ENTITY_ID_SUSPICIOUS` finding. -/
def entityFinding : Finding :=
  ⟨"medium", "ENTITY_ID_SUSPICIOUS",
   "entity_id is usually a URI; verify it matches your IdP.",
   "payload.saml.entity_id"⟩

/-- The `DOMAIN_HAS_SPACES` finding. -/
def spacesFinding : Finding :=
  ⟨"high", "DOMAIN_HAS_SPACES", "Domain contains spaces; invalid.",
   "payload.domains[].domain"⟩

/-- The `DOMAIN_LOOKS_LIKE_URL` finding. -/
def urlShapeFinding : Finding :=
  ⟨"high", "DOMAIN_LOOKS_LIKE_URL", "Domain should be a hostname, not a URL.",
   "payload.domains[].domain"⟩

/-- The `DOMAIN_MISSING_TLD` finding. -/
def tldFinding : Finding :=
  ⟨"medium", "DOMAIN_MISSING_TLD", "Domain missing a dot/TLD; verify.",
   "payload.domains[].domain"⟩

/-- The `ATTRIBUTE_MAPPING_EMPTY` finding. -/
def emptyKeysFinding : Finding :=
  ⟨"high", "ATTRIBUTE_MAPPING_EMPTY",
   "attribute_mapping.keys is empty; users may not map correctly.",
   "payload.saml.attribute_mapping.keys"⟩

/-- The `EMAIL_MAPPING_MISSING` finding. -/
def emailFinding : Finding :=
  ⟨"medium", "EMAIL_MAPPING_MISSING",
   "No obvious email attribute mapping detected; verify IdP attributes.",
   "payload.saml.attribute_mapping.keys"⟩

/-- The metadata-URL rule: invalid URL → high `METADATA_URL_INVALID`,
non-https scheme → high `METADATA_URL_NOT_HTTPS`. -/
def auditUrlFindings (cfg : Json) : List Finding :=
  if (jget (jget cfg "saml") "metadata_url").truthy then
    match urlProtocol (jsToString (jget (jget cfg "saml") "metadata_url")) with
    | some proto => if proto ≠ "https:" then [notHttpsFinding] else []
    | none => [badUrlFinding]
  else []

/-- The entity-id rule: a truthy `entity_id` with no ":" → medium
`ENTITY_ID_SUSPICIOUS`.  `none` models the TypeError of calling
`.includes` on a number/boolean/object (never reached on schema-valid
configs, where `entity_id` is a string). -/
def auditEntityFindings (cfg : Json) : Option (List Finding) :=
  let e := jget (jget cfg "saml") "entity_id"
  if e.truthy then
    match e with
    | .str s => some (if !(strIncludes s ":") then [entityFinding] else [])
    | .arr xs =>
      some (if !(xs.any fun x => match x with | .str s => s = ":" | _ => false) then
        [entityFinding] else [])
    | _ => none
  else some []

/-- Loop body of the domain-binding rules: spaces → high, URL-shaped →
high, no dot → medium; all applicable rules fire, in this order. -/
def auditDomainFindings (d : Json) : List Finding :=
  match jget d "domain" with
  | .str s =>
    (if strIncludes s " " then [spacesFinding] else []) ++
    (if strIncludes s "http://" || strIncludes s "https://" then
      [urlShapeFinding] else []) ++
    (if (splitDot s.data).length < 2 then [tldFinding] else [])
  | _ => []

/-- `for (const d of cfg.domains || [])`: iterate an array; a string is
iterated per character (each yielding no finding, since a character has
no `domain` property of string type); other truthy non-iterables throw. -/
def auditDomainsFindings (cfg : Json) : Option (List Finding) :=
  let ds := jget cfg "domains"
  if ds.truthy then
    match ds with
    | .arr l => some (l.flatMap auditDomainFindings)
    | .str _ => some []
    | _ => none
  else some []

/-- `Object.keys(keys)` paired with the `keys[k]` reads of the mapping
loop: an object's own values, an array's elements, a string's
characters. -/
def auditKeysEntries (cfg : Json) : List Json :=
  match (if (jget (jget (jget cfg "saml") "attribute_mapping") "keys").truthy
    then jget (jget (jget cfg "saml") "attribute_mapping") "keys" else .obj []) with
  | .obj fs => fs.map fun kv => kv.2
  | .arr xs => xs
  | .str s => s.data.map fun c => Json.str (String.mk [c])
  | _ => []

/-- The case-insensitive `present` set of mapped attribute names. -/
def auditPresentNames (entries : List Json) : List String :=
  entries.flatMap fun entry =>
    (match jget entry "name" with
     | .str s => [lowerJS s]
     | _ => []) ++
    (match jget entry "names" with
     | .arr ns => ns.flatMap fun n =>
       match n with | .str s => [lowerJS s] | _ => []
     | _ => [])

/-- Case-insensitive attribute-name collection plus the two mapping
rules: empty `keys` → high `ATTRIBUTE_MAPPING_EMPTY`; otherwise, no
"email" among the collected lowercased names → medium
`EMAIL_MAPPING_MISSING`. -/
def auditKeysFindings (cfg : Json) : List Finding :=
  if (auditKeysEntries cfg).length = 0 then
    [emptyKeysFinding]
  else
    if !((auditPresentNames (auditKeysEntries cfg)).contains "email") then
      [emailFinding]
    else []

/-- `auditSamlConfig(cfg)`: the four rule groups in source order.  The
`Option` records the TypeErrors possible on schema-invalid inputs. -/
def auditSamlConfig (cfg : Json) : Option (List Finding) :=
  match auditEntityFindings cfg, auditDomainsFindings cfg with
  | some ef, some df =>
    some (auditUrlFindings cfg ++ ef ++ df ++ auditKeysFindings cfg)
  | _, _ => none

/-! ## The mode dispatcher (`handler`) -/

/-- The raw request body as the function receives it: absent, a string
that fails `JSON.parse`, or a string that parses to a JSON value. -/
inductive BodyField where
  | absent : BodyField
  | malformed : BodyField
  | parsed : Json → BodyField

/-- A Netlify function event, with the query parameter `mode` already
extracted the way `new URL(event.rawUrl).searchParams.get("mode")`
returns it (`none` when absent). -/
structure Event where
  httpMethod : String
  queryMode : Option String
  body : BodyField

/-- `parseBody(event)`: `{}` for a missing/empty body, `null` when
`JSON.parse` throws, otherwise the parsed value. -/
def parseBody : BodyField → Json
  | .absent => .obj []
  | .malformed => .null
  | .parsed j => j

/-- `x || y`. -/
def jsOr (x y : Json) : Json :=
  if x.truthy then x else y

/-- `String(body.mode || "").trim()`. -/
def extractMode (body : Json) : String :=
  trimJS (jsToString (jsOr (jget body "mode") (.str "")))

/-- External pieces the handler reads but that live outside the
validator core: `process.version` for the health object, and Ajv's
error-item rendering (`ajvToErrors` applied to `validateSaml.errors` /
`validateEnvelope.errors`), which depends on Ajv internals and which no
claim inspects.  Theorems quantify over all of these. -/
structure Externals where
  nodeVersion : String
  renderSamlErrs : Json → List ErrItem
  renderEnvErrs : Json → List ErrItem

/-- The `mode=spec` GET result object. -/
def specResult : Json :=
  .obj [("type", .str "validator_spec"),
        ("modes", .arr [.str "validate_saml_config", .str "audit_saml_config",
                        .str "validate_envelope_contract"]),
        ("contracts", .arr [.str "xor_envelope"])]

/-- The `mode=health` GET result object. -/
def healthResult (nodeVersion : String) : Json :=
  .obj [("type", .str "health"), ("ok", .bool true),
        ("runtime", .obj [("node", .str nodeVersion)])]

/-- The single error item of the invalid-mode rejection. -/
def invalidModeItem : ErrItem :=
  ⟨"request", "body.mode", "body",
   "mode must be one of: validate_saml_config | audit_saml_config | validate_envelope_contract",
   "invalid_mode"⟩

/-- The single error item of the non-object-payload rejection. -/
def invalidPayloadItem : ErrItem :=
  ⟨"request", "body.payload", "body", "payload must be an object",
   "invalid_payload"⟩

/-- The exported `handler`, parameterized over the externals `ext` and
over the normalizer actually invoked (`handler` below instantiates it
with `normalizeSamlConfig`; theorems that state that the normalizer is
not reached quantify over this argument).  `none` models an uncaught
exception escaping the POST path (the function then produces no
response of its own). -/
def handlerCore (ext : Externals) (norm : Json → Option Json) (event : Event) :
    Option Response :=
  if event.httpMethod = "OPTIONS" then
    some ⟨204, cors, .str ""⟩
  else if event.httpMethod = "GET" then
    let mode := lowerJS (match event.queryMode with
      | some m => if m = "" then "health" else m
      | none => "health")
    if mode = "spec" then some (ok [specResult])
    else some (ok [healthResult ext.nodeVersion])
  else if event.httpMethod ≠ "POST" then
    some (fail 405 "METHOD_NOT_ALLOWED" "Use POST" [])
  else
    let body := parseBody event.body
    if !body.truthy then
      some (fail 400 "INVALID_ARGUMENT" "Body must be valid JSON" [])
    else
      let mode := extractMode body
      if mode = "validate_envelope_contract" then
        let payload := jget body "payload"
        if validateEnvelope payload then
          some (ok [.obj [("type", .str "envelope_validation"),
                          ("valid", .bool true)]])
        else
          some (fail 400 "INVALID_ARGUMENT" "Envelope contract validation failed"
            (ext.renderEnvErrs payload))
      else if mode ≠ "validate_saml_config" ∧ mode ≠ "audit_saml_config" then
        some (fail 400 "INVALID_ARGUMENT" "Invalid mode" [invalidModeItem])
      else
        let payload := jget body "payload"
        if !payload.truthy || payload.typeOf ≠ "object" then
          some (fail 400 "INVALID_ARGUMENT" "payload must be an object"
            [invalidPayloadItem])
        else
          match norm payload with
          | none => none
          | some normalized =>
            if !validateSaml normalized then
              some (fail 400 "INVALID_ARGUMENT" "SAML config schema validation failed"
                (ext.renderSamlErrs normalized))
            else if mode = "audit_saml_config" then
              match auditSamlConfig normalized with
              | none => none
              | some findings =>
                some (ok [.obj [("type", .str "saml_config_audit"),
                                ("valid", .bool true),
                                ("findings", .arr (findings.map fun f =>
                                  .obj [("severity", .str f.severity),
                                        ("code", .str f.code),
                                        ("message", .str f.message),
                                        ("location", .str f.location)])),
                                ("normalized", normalized)]])
            else
              some (ok [.obj [("type", .str "saml_config_validation"),
                              ("valid", .bool true),
                              ("normalized", normalized)]])

/-- The exported `handler` with the real normalizer plugged in. -/
def handler (ext : Externals) (event : Event) : Option Response :=
  handlerCore ext normalizeSamlConfig event

/-! ## Derived notions used by the statements -/

/-- Does the JSON value, as an object, carry the field `k` (with any
stored value, `undefined` included)? -/
def hasField (b : Json) (k : String) : Bool :=
  match b with
  | .obj fs => (lookupF fs k).isSome
  | _ => false

/-- Key list of an object value. -/
def jsonKeys : Json → List String
  | .obj fs => fs.map fun kv => kv.1
  | _ => []

/-- The numeric `error.code` of a response body, when the body is a
structured failure envelope. -/
def errCodeOf (r : Response) : Option Rat :=
  match jget r.body "error" with
  | .obj es =>
    match jgetF es "code" with
    | .num q => some q
    | _ => none
  | _ => none

/-- The `error.status` label of a response body. -/
def errStatusOf (r : Response) : Option String :=
  match jget r.body "error" with
  | .obj es =>
    match jgetF es "status" with
    | .str s => some s
    | _ => none
  | _ => none

/-- Does the payload's `saml` block carry `metadata_url` (in the Ajv
presence sense)? -/
def hasMetaUrl (j : Json) : Bool :=
  !(isUndef (jget (jget j "saml") "metadata_url"))

/-- Does the payload's `saml` block carry `metadata_xml`? -/
def hasMetaXml (j : Json) : Bool :=
  !(isUndef (jget (jget j "saml") "metadata_xml"))

/-- The `saml` block schema with the metadata `oneOf` clause removed:
"valid in every other respect" at the block level. -/
def vSamlOther : Json → Bool
  | .obj fs =>
    (fs.all fun kv => samlKeys.contains kv.1 && (isUndef kv.2 || samlPropOk kv.1 kv.2)) &&
    presentF fs "id" && presentF fs "entity_id" &&
    presentF fs "attribute_mapping" && presentF fs "name_id_format"
  | _ => false

/-- Per-property root schema with the `saml` block checked only for its
non-`oneOf` clauses. -/
def topPropOkOther (k : String) (v : Json) : Bool :=
  if k = "saml" then vSamlOther v else topPropOk k v

/-- `SAML_CONFIG_SCHEMA` minus the metadata `oneOf` clause: a payload is
"valid in every other respect" exactly when this holds. -/
def validateSamlOther : Json → Bool
  | .obj fs =>
    (fs.all fun kv => topKeys.contains kv.1 && (isUndef kv.2 || topPropOkOther kv.1 kv.2)) &&
    presentF fs "id" && presentF fs "saml" && presentF fs "domains" &&
    presentF fs "created_at" && presentF fs "updated_at"
  | _ => false

/-- The payload carries a property outside the declared set, at one of
the four spots the closed schema guards: the config root, the `saml`
block, an attribute-mapping rule, or a domain binding. -/
def UnknownKeyAt (p : Json) : Prop :=
  (∃ fs k v, p = Json.obj fs ∧ (k, v) ∈ fs ∧ topKeys.contains k = false) ∨
  (∃ gs k v, jget p "saml" = Json.obj gs ∧ (k, v) ∈ gs ∧
    samlKeys.contains k = false) ∨
  (∃ ks kk rfs k v,
    jget (jget (jget p "saml") "attribute_mapping") "keys" = Json.obj ks ∧
    (kk, Json.obj rfs) ∈ ks ∧ (k, v) ∈ rfs ∧ ruleKeys.contains k = false) ∨
  (∃ ds es k v, jget p "domains" = Json.arr ds ∧ Json.obj es ∈ ds ∧
    (k, v) ∈ es ∧ domainKeys.contains k = false)

/-- A POST event carrying `{ mode, payload }`. -/
def postEvent (mode : String) (payload : Json) : Event :=
  ⟨"POST", none, .parsed (.obj [("mode", .str mode), ("payload", payload)])⟩

/-- Fixed externals used to ground closed statements (the claims never
inspect the node version or the rendered Ajv error items). -/
def extDefault : Externals :=
  ⟨"v20.11.1", fun _ => [], fun _ => []⟩

/-- The codes of the three domain-binding audit rules. -/
def domainRuleCodes : List String :=
  ["DOMAIN_HAS_SPACES", "DOMAIN_LOOKS_LIKE_URL", "DOMAIN_MISSING_TLD"]

/-! ## Concrete configurations for closed statements -/

/-- A well-formed `saml` block with an https metadata URL and an email
attribute rule. -/
def sampleSaml : Json :=
  .obj [("id", .str "s1"), ("entity_id", .str "urn:example:idp"),
        ("metadata_url", .str "https://idp.example.com/metadata.xml"),
        ("attribute_mapping", .obj [("keys", .obj
          [("k1", .obj [("name", .str "email"),
                        ("names", .arr [.str "mail", .str "Email "]),
                        ("array", .bool false)])])]),
        ("name_id_format", .str "urn:oasis:names:tc:SAML:1.1:nameid-format:emailAddress")]

/-- A single valid domain binding for `example.com` (with leading
whitespace and uppercase, exercising normalization). -/
def sampleDomain : Json :=
  .obj [("id", .str "d1"), ("domain", .str " Example.COM "),
        ("created_at", .str "2024-01-01T00:00:00Z"),
        ("updated_at", .str "2024-01-01T00:00:00Z")]

/-- A fully valid SAML config. -/
def sampleCfg : Json :=
  .obj [("id", .str "cfg1"), ("saml", sampleSaml),
        ("domains", .arr [sampleDomain]),
        ("created_at", .str "2024-01-01T00:00:00Z"),
        ("updated_at", .str "2024-01-01T00:00:00Z")]

/-- `sampleCfg` with both metadata forms present. -/
def cfgBothMeta : Json :=
  setProp sampleCfg "saml" (setProp sampleSaml "metadata_xml" (.str "<EntityDescriptor/>"))

/-- `sampleCfg` with an http (non-secure) metadata URL, already in
normal form. -/
def cfgHttp : Json :=
  setProp (setProp sampleCfg "saml"
      (setProp sampleSaml "metadata_url" (.str "http://example.com/metadata.xml")))
    "domains" (.arr [setProp sampleDomain "domain" (.str "example.com")])

/-- `sampleCfg` with a tab character inside the bound domain: structurally
valid, and the domain contains whitespace that is not a space. -/
def cfgTabDomain : Json :=
  setProp sampleCfg "domains"
    (.arr [setProp sampleDomain "domain"
      (.str (String.mk ['e', 'x', 'a', Char.ofNat 9, 'm', 'p', 'l', 'e', '.', 'c', 'o', 'm']))])

/-- A payload with an unknown top-level property whose `domains` array
contains `null`: normalization throws before validation can reject it. -/
def cfgUnknownCrash : Json :=
  .obj [("extra", .num 1), ("domains", .arr [.null])]

/-- A fully valid SAML config carrying one extra unknown top-level
property `extra`; normalization succeeds on it. -/
def cfgExtraTop : Json :=
  Json.obj [("id", Json.str "cfg1"), ("saml", sampleSaml),
    ("domains", Json.arr [sampleDomain]),
    ("created_at", Json.str "2024-01-01T00:00:00Z"),
    ("updated_at", Json.str "2024-01-01T00:00:00Z"),
    ("extra", Json.num 1)]

/-- `sampleCfg` with the attribute rule's `names` list non-empty but
consisting only of whitespace strings. -/
def cfgWsNames : Json :=
  setProp sampleCfg "saml" (setProp sampleSaml "attribute_mapping" (.obj [("keys", .obj
    [("k1", .obj [("name", .str "email"),
                  ("names", .arr [.str "   ", .str (String.mk [Char.ofNat 9])]),
                  ("array", .bool false)])])]))

/-- The top-level keys of the value are pairwise distinct.  Objects
produced by `JSON.parse` always satisfy this (JavaScript objects cannot
carry duplicate keys); the association-list model can express duplicates,
so theorems about whole-object validity assume it. -/
def topNodup (j : Json) : Prop :=
  match j with
  | Json.obj fs => (fs.map Prod.fst).Nodup
  | _ => True

/-! ## Field-list lemmas -/

theorem lookupF_mem {fs : List (String × Json)} {k : String} {v : Json}
    (h : lookupF fs k = some v) : (k, v) ∈ fs := by
  induction fs with
  | nil => simp [lookupF] at h
  | cons kv rest ih =>
    obtain ⟨k', v'⟩ := kv
    by_cases hk : k' = k
    · subst hk
      simp [lookupF] at h
      simp [h]
    · simp [lookupF, hk] at h
      exact List.mem_cons_of_mem _ (ih h)

theorem lookupF_setField_same (fs : List (String × Json)) (k : String) (v : Json) :
    lookupF (setField fs k v) k = some v := by
  induction fs with
  | nil => simp [setField, lookupF]
  | cons kv rest ih =>
    obtain ⟨k', v'⟩ := kv
    by_cases hk : k' = k
    · subst hk
      simp [setField, lookupF]
    · simp [setField, lookupF, hk, ih]

theorem lookupF_setField_ne (fs : List (String × Json)) {k k' : String} (v : Json)
    (h : k' ≠ k) : lookupF (setField fs k v) k' = lookupF fs k' := by
  have hs : k ≠ k' := fun hh => h hh.symm
  induction fs with
  | nil => simp [setField, lookupF, hs]
  | cons kv rest ih =>
    obtain ⟨k0, v0⟩ := kv
    by_cases hk : k0 = k
    · subst hk
      simp [setField, lookupF, hs]
    · simp [setField, lookupF, hk, ih]

theorem jgetF_setField_same (fs : List (String × Json)) (k : String) (v : Json) :
    jgetF (setField fs k v) k = v := by
  simp [jgetF, lookupF_setField_same]

theorem jgetF_setField_ne (fs : List (String × Json)) {k k' : String} (v : Json)
    (h : k' ≠ k) : jgetF (setField fs k v) k' = jgetF fs k' := by
  simp [jgetF, lookupF_setField_ne fs v h]

theorem setField_of_lookupF {fs : List (String × Json)} {k : String} {v : Json}
    (h : lookupF fs k = some v) : setField fs k v = fs := by
  induction fs with
  | nil => simp [lookupF] at h
  | cons kv rest ih =>
    obtain ⟨k', v'⟩ := kv
    by_cases hk : k' = k
    · subst hk
      simp [lookupF] at h
      simp [setField, h]
    · simp [lookupF, hk] at h
      simp [setField, hk, ih h]

theorem map_fst_setField {fs : List (String × Json)} {k : String} (v : Json)
    (h : (lookupF fs k).isSome) :
    (setField fs k v).map Prod.fst = fs.map Prod.fst := by
  induction fs with
  | nil => simp [lookupF] at h
  | cons kv rest ih =>
    obtain ⟨k', v'⟩ := kv
    by_cases hk : k' = k
    · subst hk
      simp [setField]
    · simp [lookupF, hk] at h
      simp [setField, hk, ih h]

theorem mem_setField_of_ne {fs : List (String × Json)} {k' : String} {v' : Json}
    (k : String) (v : Json) (h : (k', v') ∈ fs) (hne : k' ≠ k) :
    (k', v') ∈ setField fs k v := by
  induction fs with
  | nil => simp at h
  | cons kv rest ih =>
    obtain ⟨k0, v0⟩ := kv
    by_cases hk : k0 = k
    · subst hk
      rcases List.mem_cons.mp h with h1 | h1
      · exact absurd (congrArg Prod.fst h1) hne
      · simp [setField]
        exact Or.inr h1
    · rcases List.mem_cons.mp h with h1 | h1
      · simp [setField, hk, h1]
      · simp [setField, hk]
        exact Or.inr (ih h1)

theorem jget_setProp_same {fs : List (String × Json)} (k : String) (v : Json) :
    jget (setProp (Json.obj fs) k v) k = v := by
  simp [setProp, jget, jgetF_setField_same]

theorem jget_setProp_ne {fs : List (String × Json)} {k k' : String} (v : Json)
    (h : k' ≠ k) : jget (setProp (Json.obj fs) k v) k' = jget (Json.obj fs) k' := by
  simp [setProp, jget, jgetF_setField_ne fs v h]

/-! ## Trim / lowercase lemmas -/

theorem dropWhile_head_false {p : Char → Bool} {l rest : List Char} {c : Char}
    (h : l.dropWhile p = c :: rest) : p c = false := by
  have := List.head?_dropWhile_not p l
  rw [h] at this
  simpa using this

theorem dropWhile_of_head_false {p : Char → Bool} {l : List Char}
    (h : ∀ c rest, l = c :: rest → p c = false) : l.dropWhile p = l := by
  cases l with
  | nil => rfl
  | cons c rest => simp [List.dropWhile, h c rest rfl]

theorem dropWhile_idem (p : Char → Bool) (l : List Char) :
    (l.dropWhile p).dropWhile p = l.dropWhile p := by
  apply dropWhile_of_head_false
  intro c rest h
  exact dropWhile_head_false h

theorem dropEndWhile_idem (p : Char → Bool) (l : List Char) :
    dropEndWhile p (dropEndWhile p l) = dropEndWhile p l := by
  simp [dropEndWhile, dropWhile_idem]

theorem dropEndWhile_prefix (p : Char → Bool) (l : List Char) :
    ∃ t, l = dropEndWhile p l ++ t := by
  refine ⟨(l.reverse.takeWhile p).reverse, ?_⟩
  unfold dropEndWhile
  rw [← List.reverse_append, List.takeWhile_append_dropWhile, List.reverse_reverse]

theorem trimList_idem (l : List Char) : trimList (trimList l) = trimList l := by
  unfold trimList
  set m := l.dropWhile isJsWhite with hm
  have h1 : (dropEndWhile isJsWhite m).dropWhile isJsWhite = dropEndWhile isJsWhite m := by
    apply dropWhile_of_head_false
    intro c rest h
    obtain ⟨t, ht⟩ := dropEndWhile_prefix isJsWhite m
    rw [h] at ht
    have hm2 : m.dropWhile isJsWhite = m := by
      rw [hm]
      exact dropWhile_idem _ _
    rw [ht] at hm2
    by_contra hcc
    have hw : isJsWhite c = true := by
      revert hcc
      cases isJsWhite c <;> simp
    rw [List.cons_append, List.dropWhile_cons, if_pos hw] at hm2
    have hle := (List.dropWhile_sublist (l := rest ++ t) isJsWhite).length_le
    rw [hm2] at hle
    simp at hle
  rw [h1, dropEndWhile_idem]

theorem trimJS_idem (s : String) : trimJS (trimJS s) = trimJS s := by
  show (⟨trimList (trimList s.data)⟩ : String) = ⟨trimList s.data⟩
  rw [trimList_idem]

theorem toNat_charOfNat_lt {n : Nat} (h : n < 55296) : (Char.ofNat n).toNat = n := by
  unfold Char.ofNat
  rw [dif_pos (Or.inl h)]
  rfl

theorem lowerChar_not_upper (c : Char) (h : ¬(65 ≤ c.toNat ∧ c.toNat ≤ 90)) :
    lowerChar c = c := by
  unfold lowerChar
  rw [if_neg h]

theorem lowerChar_toNat_of_upper (c : Char) (h : 65 ≤ c.toNat ∧ c.toNat ≤ 90) :
    (lowerChar c).toNat = c.toNat + 32 := by
  unfold lowerChar
  rw [if_pos h]
  exact toNat_charOfNat_lt (by omega)

theorem isJsWhite_iff (c : Char) : isJsWhite c = true ↔
    (c.toNat = 32 ∨ c.toNat = 9 ∨ c.toNat = 10 ∨ c.toNat = 11 ∨
     c.toNat = 12 ∨ c.toNat = 13 ∨ c.toNat = 160 ∨ c.toNat = 5760 ∨
     (8192 ≤ c.toNat ∧ c.toNat ≤ 8202) ∨ c.toNat = 8232 ∨
     c.toNat = 8233 ∨ c.toNat = 8239 ∨ c.toNat = 8287 ∨
     c.toNat = 12288 ∨ c.toNat = 65279) := by
  simp [isJsWhite, Bool.or_eq_true, decide_eq_true_eq, Bool.and_eq_true]
  tauto

theorem lowerChar_idem (c : Char) : lowerChar (lowerChar c) = lowerChar c := by
  by_cases h : 65 ≤ c.toNat ∧ c.toNat ≤ 90
  · refine lowerChar_not_upper _ ?_
    have h2 := lowerChar_toNat_of_upper c h
    omega
  · rw [lowerChar_not_upper c h]
    exact lowerChar_not_upper c h

theorem isJsWhite_lowerChar (c : Char) : isJsWhite (lowerChar c) = isJsWhite c := by
  by_cases h : 65 ≤ c.toNat ∧ c.toNat ≤ 90
  · have h2 := lowerChar_toNat_of_upper c h
    have hL : isJsWhite (lowerChar c) = false := by
      rw [← Bool.not_eq_true, isJsWhite_iff, h2]
      omega
    have hR : isJsWhite c = false := by
      rw [← Bool.not_eq_true, isJsWhite_iff]
      omega
    rw [hL, hR]
  · rw [lowerChar_not_upper c h]

theorem trimList_map_lowerChar (l : List Char) :
    trimList (l.map lowerChar) = (trimList l).map lowerChar := by
  have hc : (isJsWhite ∘ lowerChar) = isJsWhite := by
    funext c
    exact isJsWhite_lowerChar c
  have hend : ∀ x : List Char,
      dropEndWhile isJsWhite (x.map lowerChar) = (dropEndWhile isJsWhite x).map lowerChar := by
    intro x
    unfold dropEndWhile
    rw [← List.map_reverse, List.dropWhile_map, hc, List.map_reverse]
  unfold trimList
  rw [List.dropWhile_map, hc, hend]

theorem lowerJS_trimJS_stable (s : String) :
    lowerJS (trimJS (lowerJS (trimJS s))) = lowerJS (trimJS s) := by
  have hmapidem : ∀ l : List Char, (l.map lowerChar).map lowerChar = l.map lowerChar := by
    intro l
    rw [List.map_map]
    apply List.map_congr_left
    intro c _
    exact lowerChar_idem c
  simp only [lowerJS, trimJS]
  congr 1
  show ((trimList ((trimList s.data).map lowerChar))).map lowerChar
      = (trimList s.data).map lowerChar
  rw [trimList_map_lowerChar, trimList_idem, hmapidem]

/-! ## Generic stability lemmas for the normalizer -/

theorem lookupF_eq_of_jgetF {fs : List (String × Json)} {k : String} {v : Json}
    (h : jgetF fs k = v) (hv : v ≠ Json.undef) : lookupF fs k = some v := by
  unfold jgetF at h
  cases hl : lookupF fs k with
  | none => rw [hl] at h; exact absurd h.symm hv
  | some w => rw [hl] at h; simp at h; rw [h]

theorem setProp_jget_self (p : Json) (k : String) (hv : jget p k ≠ Json.undef) :
    setProp p k (jget p k) = p := by
  cases p with
  | obj fs =>
    simp only [jget] at hv ⊢
    simp only [setProp]
    rw [setField_of_lookupF (lookupF_eq_of_jgetF rfl hv)]
  | undef => rfl
  | null => rfl
  | bool b => rfl
  | num q => rfl
  | str s => rfl
  | arr xs => rfl

theorem jget_setProp_ne_any (p : Json) {k k' : String} (v : Json) (h : k' ≠ k) :
    jget (setProp p k v) k' = jget p k' := by
  cases p with
  | obj fs => exact jget_setProp_ne v h
  | undef => rfl
  | null => rfl
  | bool b => rfl
  | num q => rfl
  | str s => rfl
  | arr xs => rfl

theorem setProp_setProp (p : Json) (k : String) (v w : Json) :
    setProp (setProp p k v) k w = setProp p k w := by
  cases p with
  | obj fs =>
    simp only [setProp]
    congr 1
    induction fs with
    | nil => simp [setField]
    | cons kv rest ih =>
      obtain ⟨k0, v0⟩ := kv
      by_cases hk : k0 = k
      · subst hk
        simp [setField]
      · simp [setField, hk, ih]
  | undef => rfl
  | null => rfl
  | bool b => rfl
  | num q => rfl
  | str s => rfl
  | arr xs => rfl

theorem mapM_stable {f : Json → Option Json}
    (hf : ∀ a b, f a = some b → f b = some b) :
    ∀ {ds ds' : List Json}, ds.mapM f = some ds' → ds'.mapM f = some ds' := by
  intro ds
  induction ds with
  | nil =>
    intro ds' h
    rw [List.mapM_nil] at h
    cases h
    rfl
  | cons a as ih =>
    intro ds' h
    rw [List.mapM_cons] at h
    simp only [Option.bind_eq_bind, Option.bind_eq_some, Option.pure_def,
      Option.some.injEq] at h
    obtain ⟨b, hb, bs, hbs, hcons⟩ := h
    subst hcons
    rw [List.mapM_cons]
    simp only [Option.bind_eq_bind, Option.bind_eq_some, Option.pure_def,
      Option.some.injEq]
    exact ⟨b, hf a b hb, bs, ih hbs, rfl⟩

theorem mapM_mem {f : Json → Option Json} :
    ∀ {ds ds' : List Json}, ds.mapM f = some ds' → ∀ {d}, d ∈ ds →
      ∃ d', f d = some d' ∧ d' ∈ ds' := by
  intro ds
  induction ds with
  | nil =>
    intro ds' _ d hd
    simp at hd
  | cons a as ih =>
    intro ds' h d hd
    rw [List.mapM_cons] at h
    simp only [Option.bind_eq_bind, Option.bind_eq_some, Option.pure_def,
      Option.some.injEq] at h
    obtain ⟨b, hb, bs, hbs, hcons⟩ := h
    subst hcons
    rcases List.mem_cons.mp hd with h1 | h1
    · subst h1
      exact ⟨b, hb, List.mem_cons_self _ _⟩
    · obtain ⟨d', hd1, hd2⟩ := ih hbs h1
      exact ⟨d', hd1, List.mem_cons_of_mem _ hd2⟩

theorem decimalStr_digits (n : Nat) : ∀ c ∈ decimalStr n, 48 ≤ c.toNat ∧ c.toNat ≤ 57 := by
  induction n using Nat.strong_induction_on with
  | _ n ih =>
    unfold decimalStr
    by_cases h : n < 10
    · intro c hc
      simp [h] at hc
      subst hc
      unfold digitChar10
      rw [toNat_charOfNat_lt (by omega)]
      omega
    · intro c hc
      simp [h] at hc
      rcases hc with hc | hc
      · exact ih (n / 10) (Nat.div_lt_self (by omega) (by omega)) c hc
      · subst hc
        unfold digitChar10
        have hm : n % 10 < 10 := Nat.mod_lt _ (by omega)
        rw [toNat_charOfNat_lt (by omega)]
        omega

theorem decimalStr_ne_domain (n : Nat) : String.mk (decimalStr n) ≠ "domain" := by
  intro h
  have hl : decimalStr n = "domain".data := congrArg String.data h
  have hd : Char.toNat 'd' = 100 := by decide
  have : (100 : Nat) ≤ 57 := by
    have := decimalStr_digits n 'd' (by rw [hl]; decide)
    omega
  omega

theorem lookupF_append_none {a b : List (String × Json)} {k : String}
    (h : lookupF a k = none) : lookupF (a ++ b) k = lookupF b k := by
  induction a with
  | nil => rfl
  | cons kv rest ih =>
    obtain ⟨k0, v0⟩ := kv
    by_cases hk : k0 = k
    · simp [lookupF, hk] at h
    · simp [lookupF, hk] at h ⊢
      exact ih h

theorem lookupF_indexed_none {k : String} (hk : ∀ n, String.mk (decimalStr n) ≠ k) :
    ∀ (l : List (Nat × Json)),
      lookupF (l.map fun p => (String.mk (decimalStr p.1), p.2)) k = none := by
  intro l
  induction l with
  | nil => rfl
  | cons p rest ih =>
    simp only [List.map_cons, lookupF, ih]
    rw [if_neg (hk p.1)]

/-! ## Per-block stability of the normalizer -/

theorem normDomainItem_stable {d d' : Json} (h : normDomainItem d = some d') :
    normDomainItem d' = some d' := by
  cases d with
  | null => simp [normDomainItem, getProp?] at h
  | undef => simp [normDomainItem, getProp?] at h
  | obj fs =>
    simp only [normDomainItem, getProp?, jget, Option.some.injEq] at h
    cases hv : jgetF fs "domain" with
    | str s =>
      rw [hv] at h
      simp only [spreadSetDomain] at h
      subst h
      simp only [normDomainItem, getProp?, jget, Option.some.injEq,
        jgetF_setField_same, spreadSetDomain]
      rw [lowerJS_trimJS_stable]
      congr 1
      rw [setField_of_lookupF (lookupF_setField_same fs "domain" _)]
    | undef =>
      rw [hv] at h
      simp only [spreadSetDomain] at h
      subst h
      simp only [normDomainItem, getProp?, jget, Option.some.injEq,
        jgetF_setField_same, spreadSetDomain]
      congr 1
      rw [setField_of_lookupF (lookupF_setField_same fs "domain" _)]
    | null =>
      rw [hv] at h
      simp only [spreadSetDomain] at h
      subst h
      simp only [normDomainItem, getProp?, jget, Option.some.injEq,
        jgetF_setField_same, spreadSetDomain]
      congr 1
      rw [setField_of_lookupF (lookupF_setField_same fs "domain" _)]
    | bool b =>
      rw [hv] at h
      simp only [spreadSetDomain] at h
      subst h
      simp only [normDomainItem, getProp?, jget, Option.some.injEq,
        jgetF_setField_same, spreadSetDomain]
      congr 1
      rw [setField_of_lookupF (lookupF_setField_same fs "domain" _)]
    | num q =>
      rw [hv] at h
      simp only [spreadSetDomain] at h
      subst h
      simp only [normDomainItem, getProp?, jget, Option.some.injEq,
        jgetF_setField_same, spreadSetDomain]
      congr 1
      rw [setField_of_lookupF (lookupF_setField_same fs "domain" _)]
    | arr xs =>
      rw [hv] at h
      simp only [spreadSetDomain] at h
      subst h
      simp only [normDomainItem, getProp?, jget, Option.some.injEq,
        jgetF_setField_same, spreadSetDomain]
      congr 1
      rw [setField_of_lookupF (lookupF_setField_same fs "domain" _)]
    | obj gs =>
      rw [hv] at h
      simp only [spreadSetDomain] at h
      subst h
      simp only [normDomainItem, getProp?, jget, Option.some.injEq,
        jgetF_setField_same, spreadSetDomain]
      congr 1
      rw [setField_of_lookupF (lookupF_setField_same fs "domain" _)]
  | arr xs =>
    simp only [normDomainItem, getProp?, jget, Option.some.injEq] at h
    simp only [spreadSetDomain] at h
    subst h
    have hnone : lookupF (xs.enum.map fun p => (String.mk (decimalStr p.1), p.2)) "domain"
        = none := lookupF_indexed_none decimalStr_ne_domain _
    have hget : jgetF ((xs.enum.map fun p => (String.mk (decimalStr p.1), p.2)) ++
        [("domain", Json.undef)]) "domain" = Json.undef := by
      unfold jgetF
      rw [lookupF_append_none hnone]
      rfl
    simp only [normDomainItem, getProp?, jget, Option.some.injEq, hget, spreadSetDomain]
    congr 1
    apply setField_of_lookupF
    rw [lookupF_append_none hnone]
    rfl
  | str s =>
    simp only [normDomainItem, getProp?, jget, Option.some.injEq] at h
    simp only [spreadSetDomain] at h
    subst h
    have hnone : lookupF (s.data.enum.map fun p =>
        (String.mk (decimalStr p.1), Json.str (String.mk [p.2]))) "domain" = none := by
      have := lookupF_indexed_none (k := "domain") decimalStr_ne_domain
        (s.data.enum.map fun p => (p.1, Json.str (String.mk [p.2])))
      simpa [List.map_map, Function.comp] using this
    have hget : jgetF ((s.data.enum.map fun p =>
        (String.mk (decimalStr p.1), Json.str (String.mk [p.2]))) ++
        [("domain", Json.undef)]) "domain" = Json.undef := by
      unfold jgetF
      rw [lookupF_append_none hnone]
      rfl
    simp only [normDomainItem, getProp?, jget, Option.some.injEq, hget, spreadSetDomain]
    congr 1
    apply setField_of_lookupF
    rw [lookupF_append_none hnone]
    rfl
  | bool b =>
    simp only [normDomainItem, getProp?, jget, Option.some.injEq] at h
    simp only [spreadSetDomain] at h
    subst h
    simp only [normDomainItem, getProp?, jget, Option.some.injEq, jgetF,
      lookupF, spreadSetDomain]
    rfl
  | num q =>
    simp only [normDomainItem, getProp?, jget, Option.some.injEq] at h
    simp only [spreadSetDomain] at h
    subst h
    simp only [normDomainItem, getProp?, jget, Option.some.injEq, jgetF,
      lookupF, spreadSetDomain]
    rfl

theorem trimIfStr_idem (x : Json) : trimIfStr (trimIfStr x) = trimIfStr x := by
  cases x <;> simp [trimIfStr, trimJS_idem]

theorem names_step_stable (l : List Json) :
    ((((l.map trimIfStr).filter Json.truthy).map trimIfStr).filter Json.truthy)
      = (l.map trimIfStr).filter Json.truthy := by
  have hmap : ((l.map trimIfStr).filter Json.truthy).map trimIfStr
      = (l.map trimIfStr).filter Json.truthy := by
    have := List.map_congr_left (l := (l.map trimIfStr).filter Json.truthy)
      (f := trimIfStr) (g := id) ?_
    · simpa using this
    · intro x hx
      have hx2 : x ∈ l.map trimIfStr := List.mem_of_mem_filter hx
      obtain ⟨y, _, hy⟩ := List.mem_map.mp hx2
      subst hy
      simp [trimIfStr_idem]
  rw [hmap]
  apply List.filter_eq_self.mpr
  intro a ha
  exact List.of_mem_filter ha

theorem normRuleEntry_non_obj (m : Json) (h : ∀ fs, m ≠ Json.obj fs) :
    normRuleEntry m = m := by
  cases m with
  | obj fs => exact absurd rfl (h fs)
  | undef => rfl
  | null => rfl
  | bool b => cases b <;> rfl
  | num q =>
    unfold normRuleEntry
    by_cases hq : Json.truthy (Json.num q) = true
    · simp [hq, jget]
    · simp at hq
      simp [hq, jget]
  | str s =>
    unfold normRuleEntry
    by_cases hq : Json.truthy (Json.str s) = true
    · simp [hq, jget]
    · simp at hq
      simp [hq, jget]
  | arr xs =>
    unfold normRuleEntry
    simp [Json.truthy, jget]

theorem normRuleEntry_fix (gs : List (String × Json))
    (hnames : ∀ l, jgetF gs "names" = Json.arr l →
      (l.map trimIfStr).filter Json.truthy = l)
    (hname : ∀ s, jgetF gs "name" = Json.str s → trimJS s = s) :
    normRuleEntry (Json.obj gs) = Json.obj gs := by
  unfold normRuleEntry
  have hm1 : (if (Json.obj gs).truthy = true then
      match jget (Json.obj gs) "names" with
      | Json.arr l => setProp (Json.obj gs) "names"
          (Json.arr ((l.map trimIfStr).filter Json.truthy))
      | _ => Json.obj gs
    else Json.obj gs) = Json.obj gs := by
    simp only [Json.truthy, eq_self_iff_true, if_true]
    cases hn : jgetF gs "names" with
    | arr l =>
      simp only [jget, hn, hnames l hn, setProp]
      rw [setField_of_lookupF (lookupF_eq_of_jgetF hn (by simp))]
    | undef => simp [jget, hn]
    | null => simp [jget, hn]
    | bool b => simp [jget, hn]
    | num q => simp [jget, hn]
    | str s => simp [jget, hn]
    | obj hs => simp [jget, hn]
  rw [hm1]
  cases hm : jgetF gs "name" with
  | str s =>
    simp only [jget, hm, hname s hm, setProp]
    rw [setField_of_lookupF (lookupF_eq_of_jgetF hm (by simp))]
  | undef => simp [jget, hm]
  | null => simp [jget, hm]
  | bool b => simp [jget, hm]
  | num q => simp [jget, hm]
  | arr ys => simp [jget, hm]
  | obj hs => simp [jget, hm]

theorem normRuleEntry_obj_cases (fs : List (String × Json)) :
    ∃ gs, normRuleEntry (Json.obj fs) = Json.obj gs ∧
      (∀ l, jgetF gs "names" = Json.arr l →
        (l.map trimIfStr).filter Json.truthy = l) ∧
      (∀ s, jgetF gs "name" = Json.str s → trimJS s = s) := by
  unfold normRuleEntry
  simp only [Json.truthy, eq_self_iff_true, if_true]
  cases hn : jgetF fs "names" with
  | arr l =>
    simp only [jget, hn, setProp]
    set L := (l.map trimIfStr).filter Json.truthy with hL
    have hnames1 : jgetF (setField fs "names" (Json.arr L)) "names" = Json.arr L :=
      jgetF_setField_same _ _ _
    cases hm : jgetF (setField fs "names" (Json.arr L)) "name" with
    | str s =>
      refine ⟨setField (setField fs "names" (Json.arr L)) "name" (Json.str (trimJS s)),
        by simp [setProp], ?_, ?_⟩
      · intro l2 hl2
        rw [jgetF_setField_ne _ _ (by decide), hnames1] at hl2
        cases hl2
        rw [hL]
        exact names_step_stable l
      · intro s2 hs2
        rw [jgetF_setField_same] at hs2
        cases hs2
        exact trimJS_idem s
    | undef =>
      refine ⟨setField fs "names" (Json.arr L), by simp [jget, hm], ?_, ?_⟩
      · intro l2 hl2
        rw [hnames1] at hl2
        cases hl2
        rw [hL]
        exact names_step_stable l
      · intro s2 hs2
        rw [hm] at hs2
        cases hs2
    | null =>
      refine ⟨setField fs "names" (Json.arr L), by simp [jget, hm], ?_, ?_⟩
      · intro l2 hl2
        rw [hnames1] at hl2
        cases hl2
        rw [hL]
        exact names_step_stable l
      · intro s2 hs2
        rw [hm] at hs2
        cases hs2
    | bool b =>
      refine ⟨setField fs "names" (Json.arr L), by simp [jget, hm], ?_, ?_⟩
      · intro l2 hl2
        rw [hnames1] at hl2
        cases hl2
        rw [hL]
        exact names_step_stable l
      · intro s2 hs2
        rw [hm] at hs2
        cases hs2
    | num q =>
      refine ⟨setField fs "names" (Json.arr L), by simp [jget, hm], ?_, ?_⟩
      · intro l2 hl2
        rw [hnames1] at hl2
        cases hl2
        rw [hL]
        exact names_step_stable l
      · intro s2 hs2
        rw [hm] at hs2
        cases hs2
    | arr ys =>
      refine ⟨setField fs "names" (Json.arr L), by simp [jget, hm], ?_, ?_⟩
      · intro l2 hl2
        rw [hnames1] at hl2
        cases hl2
        rw [hL]
        exact names_step_stable l
      · intro s2 hs2
        rw [hm] at hs2
        cases hs2
    | obj hs =>
      refine ⟨setField fs "names" (Json.arr L), by simp [jget, hm], ?_, ?_⟩
      · intro l2 hl2
        rw [hnames1] at hl2
        cases hl2
        rw [hL]
        exact names_step_stable l
      · intro s2 hs2
        rw [hm] at hs2
        cases hs2
  | undef =>
    simp only [jget, hn]
    cases hm : jgetF fs "name" with
    | str s =>
      refine ⟨setField fs "name" (Json.str (trimJS s)), by simp [setProp], ?_, ?_⟩
      · intro l2 hl2
        rw [jgetF_setField_ne _ _ (by decide), hn] at hl2
        cases hl2
      · intro s2 hs2
        rw [jgetF_setField_same] at hs2
        cases hs2
        exact trimJS_idem s
    | undef =>
      refine ⟨fs, rfl, ?_, ?_⟩
      · intro l2 hl2
        rw [hn] at hl2
        cases hl2
      · intro s2 hs2
        rw [hm] at hs2
        cases hs2
    | null =>
      refine ⟨fs, rfl, ?_, ?_⟩
      · intro l2 hl2
        rw [hn] at hl2
        cases hl2
      · intro s2 hs2
        rw [hm] at hs2
        cases hs2
    | bool b =>
      refine ⟨fs, rfl, ?_, ?_⟩
      · intro l2 hl2
        rw [hn] at hl2
        cases hl2
      · intro s2 hs2
        rw [hm] at hs2
        cases hs2
    | num q =>
      refine ⟨fs, rfl, ?_, ?_⟩
      · intro l2 hl2
        rw [hn] at hl2
        cases hl2
      · intro s2 hs2
        rw [hm] at hs2
        cases hs2
    | arr ys =>
      refine ⟨fs, rfl, ?_, ?_⟩
      · intro l2 hl2
        rw [hn] at hl2
        cases hl2
      · intro s2 hs2
        rw [hm] at hs2
        cases hs2
    | obj hs2 =>
      refine ⟨fs, rfl, ?_, ?_⟩
      · intro l2 hl2
        rw [hn] at hl2
        cases hl2
      · intro s2 hs2
        rw [hm] at hs2
        cases hs2
  | null =>
    simp only [jget, hn]
    cases hm : jgetF fs "name" with
    | str s =>
      refine ⟨setField fs "name" (Json.str (trimJS s)), by simp [setProp], ?_, ?_⟩
      · intro l2 hl2
        rw [jgetF_setField_ne _ _ (by decide), hn] at hl2
        cases hl2
      · intro s2 hs2
        rw [jgetF_setField_same] at hs2
        cases hs2
        exact trimJS_idem s
    | undef =>
      refine ⟨fs, rfl, fun l2 hl2 => ?_, fun s2 hs2 => ?_⟩
      · rw [hn] at hl2
        cases hl2
      · rw [hm] at hs2
        cases hs2
    | null =>
      refine ⟨fs, rfl, fun l2 hl2 => ?_, fun s2 hs2 => ?_⟩
      · rw [hn] at hl2
        cases hl2
      · rw [hm] at hs2
        cases hs2
    | bool b =>
      refine ⟨fs, rfl, fun l2 hl2 => ?_, fun s2 hs2 => ?_⟩
      · rw [hn] at hl2
        cases hl2
      · rw [hm] at hs2
        cases hs2
    | num q =>
      refine ⟨fs, rfl, fun l2 hl2 => ?_, fun s2 hs2 => ?_⟩
      · rw [hn] at hl2
        cases hl2
      · rw [hm] at hs2
        cases hs2
    | arr ys =>
      refine ⟨fs, rfl, fun l2 hl2 => ?_, fun s2 hs2 => ?_⟩
      · rw [hn] at hl2
        cases hl2
      · rw [hm] at hs2
        cases hs2
    | obj hs2 =>
      refine ⟨fs, rfl, fun l2 hl2 => ?_, fun s2 hs2 => ?_⟩
      · rw [hn] at hl2
        cases hl2
      · rw [hm] at hs2
        cases hs2
  | bool b0 =>
    simp only [jget, hn]
    cases hm : jgetF fs "name" with
    | str s =>
      refine ⟨setField fs "name" (Json.str (trimJS s)), by simp [setProp], ?_, ?_⟩
      · intro l2 hl2
        rw [jgetF_setField_ne _ _ (by decide), hn] at hl2
        cases hl2
      · intro s2 hs2
        rw [jgetF_setField_same] at hs2
        cases hs2
        exact trimJS_idem s
    | undef =>
      refine ⟨fs, rfl, fun l2 hl2 => ?_, fun s2 hs2 => ?_⟩
      · rw [hn] at hl2
        cases hl2
      · rw [hm] at hs2
        cases hs2
    | null =>
      refine ⟨fs, rfl, fun l2 hl2 => ?_, fun s2 hs2 => ?_⟩
      · rw [hn] at hl2
        cases hl2
      · rw [hm] at hs2
        cases hs2
    | bool b =>
      refine ⟨fs, rfl, fun l2 hl2 => ?_, fun s2 hs2 => ?_⟩
      · rw [hn] at hl2
        cases hl2
      · rw [hm] at hs2
        cases hs2
    | num q =>
      refine ⟨fs, rfl, fun l2 hl2 => ?_, fun s2 hs2 => ?_⟩
      · rw [hn] at hl2
        cases hl2
      · rw [hm] at hs2
        cases hs2
    | arr ys =>
      refine ⟨fs, rfl, fun l2 hl2 => ?_, fun s2 hs2 => ?_⟩
      · rw [hn] at hl2
        cases hl2
      · rw [hm] at hs2
        cases hs2
    | obj hs2 =>
      refine ⟨fs, rfl, fun l2 hl2 => ?_, fun s2 hs2 => ?_⟩
      · rw [hn] at hl2
        cases hl2
      · rw [hm] at hs2
        cases hs2
  | num q0 =>
    simp only [jget, hn]
    cases hm : jgetF fs "name" with
    | str s =>
      refine ⟨setField fs "name" (Json.str (trimJS s)), by simp [setProp], ?_, ?_⟩
      · intro l2 hl2
        rw [jgetF_setField_ne _ _ (by decide), hn] at hl2
        cases hl2
      · intro s2 hs2
        rw [jgetF_setField_same] at hs2
        cases hs2
        exact trimJS_idem s
    | undef =>
      refine ⟨fs, rfl, fun l2 hl2 => ?_, fun s2 hs2 => ?_⟩
      · rw [hn] at hl2
        cases hl2
      · rw [hm] at hs2
        cases hs2
    | null =>
      refine ⟨fs, rfl, fun l2 hl2 => ?_, fun s2 hs2 => ?_⟩
      · rw [hn] at hl2
        cases hl2
      · rw [hm] at hs2
        cases hs2
    | bool b =>
      refine ⟨fs, rfl, fun l2 hl2 => ?_, fun s2 hs2 => ?_⟩
      · rw [hn] at hl2
        cases hl2
      · rw [hm] at hs2
        cases hs2
    | num q =>
      refine ⟨fs, rfl, fun l2 hl2 => ?_, fun s2 hs2 => ?_⟩
      · rw [hn] at hl2
        cases hl2
      · rw [hm] at hs2
        cases hs2
    | arr ys =>
      refine ⟨fs, rfl, fun l2 hl2 => ?_, fun s2 hs2 => ?_⟩
      · rw [hn] at hl2
        cases hl2
      · rw [hm] at hs2
        cases hs2
    | obj hs2 =>
      refine ⟨fs, rfl, fun l2 hl2 => ?_, fun s2 hs2 => ?_⟩
      · rw [hn] at hl2
        cases hl2
      · rw [hm] at hs2
        cases hs2
  | str st =>
    simp only [jget, hn]
    cases hm : jgetF fs "name" with
    | str s =>
      refine ⟨setField fs "name" (Json.str (trimJS s)), by simp [setProp], ?_, ?_⟩
      · intro l2 hl2
        rw [jgetF_setField_ne _ _ (by decide), hn] at hl2
        cases hl2
      · intro s2 hs2
        rw [jgetF_setField_same] at hs2
        cases hs2
        exact trimJS_idem s
    | undef =>
      refine ⟨fs, rfl, fun l2 hl2 => ?_, fun s2 hs2 => ?_⟩
      · rw [hn] at hl2
        cases hl2
      · rw [hm] at hs2
        cases hs2
    | null =>
      refine ⟨fs, rfl, fun l2 hl2 => ?_, fun s2 hs2 => ?_⟩
      · rw [hn] at hl2
        cases hl2
      · rw [hm] at hs2
        cases hs2
    | bool b =>
      refine ⟨fs, rfl, fun l2 hl2 => ?_, fun s2 hs2 => ?_⟩
      · rw [hn] at hl2
        cases hl2
      · rw [hm] at hs2
        cases hs2
    | num q =>
      refine ⟨fs, rfl, fun l2 hl2 => ?_, fun s2 hs2 => ?_⟩
      · rw [hn] at hl2
        cases hl2
      · rw [hm] at hs2
        cases hs2
    | arr ys =>
      refine ⟨fs, rfl, fun l2 hl2 => ?_, fun s2 hs2 => ?_⟩
      · rw [hn] at hl2
        cases hl2
      · rw [hm] at hs2
        cases hs2
    | obj hs2 =>
      refine ⟨fs, rfl, fun l2 hl2 => ?_, fun s2 hs2 => ?_⟩
      · rw [hn] at hl2
        cases hl2
      · rw [hm] at hs2
        cases hs2
  | obj gs0 =>
    simp only [jget, hn]
    cases hm : jgetF fs "name" with
    | str s =>
      refine ⟨setField fs "name" (Json.str (trimJS s)), by simp [setProp], ?_, ?_⟩
      · intro l2 hl2
        rw [jgetF_setField_ne _ _ (by decide), hn] at hl2
        cases hl2
      · intro s2 hs2
        rw [jgetF_setField_same] at hs2
        cases hs2
        exact trimJS_idem s
    | undef =>
      refine ⟨fs, rfl, fun l2 hl2 => ?_, fun s2 hs2 => ?_⟩
      · rw [hn] at hl2
        cases hl2
      · rw [hm] at hs2
        cases hs2
    | null =>
      refine ⟨fs, rfl, fun l2 hl2 => ?_, fun s2 hs2 => ?_⟩
      · rw [hn] at hl2
        cases hl2
      · rw [hm] at hs2
        cases hs2
    | bool b =>
      refine ⟨fs, rfl, fun l2 hl2 => ?_, fun s2 hs2 => ?_⟩
      · rw [hn] at hl2
        cases hl2
      · rw [hm] at hs2
        cases hs2
    | num q =>
      refine ⟨fs, rfl, fun l2 hl2 => ?_, fun s2 hs2 => ?_⟩
      · rw [hn] at hl2
        cases hl2
      · rw [hm] at hs2
        cases hs2
    | arr ys =>
      refine ⟨fs, rfl, fun l2 hl2 => ?_, fun s2 hs2 => ?_⟩
      · rw [hn] at hl2
        cases hl2
      · rw [hm] at hs2
        cases hs2
    | obj hs2 =>
      refine ⟨fs, rfl, fun l2 hl2 => ?_, fun s2 hs2 => ?_⟩
      · rw [hn] at hl2
        cases hl2
      · rw [hm] at hs2
        cases hs2

theorem normRuleEntry_idem (m : Json) :
    normRuleEntry (normRuleEntry m) = normRuleEntry m := by
  cases m with
  | obj fs =>
    obtain ⟨gs, hg, hnames, hname⟩ := normRuleEntry_obj_cases fs
    rw [hg]
    exact normRuleEntry_fix gs hnames hname
  | undef => rfl
  | null => rfl
  | bool b =>
    have h1 := normRuleEntry_non_obj (Json.bool b) (fun fs h => by cases h)
    rw [h1]
    exact h1
  | num q =>
    have h1 := normRuleEntry_non_obj (Json.num q) (fun fs h => by cases h)
    rw [h1]
    exact h1
  | str s =>
    have h1 := normRuleEntry_non_obj (Json.str s) (fun fs h => by cases h)
    rw [h1]
    exact h1
  | arr xs =>
    have h1 := normRuleEntry_non_obj (Json.arr xs) (fun fs h => by cases h)
    rw [h1]
    exact h1

theorem normKeysVal_idem (kv : Json) : normKeysVal (normKeysVal kv) = normKeysVal kv := by
  cases kv with
  | obj fs =>
    simp only [normKeysVal, List.map_map]
    congr 1
    apply List.map_congr_left
    intro kv _
    simp [Function.comp, normRuleEntry_idem]
  | arr xs =>
    simp only [normKeysVal, List.map_map]
    congr 1
    apply List.map_congr_left
    intro x _
    simp [Function.comp, normRuleEntry_idem]
  | undef => rfl
  | null => rfl
  | bool b => rfl
  | num q => rfl
  | str s => rfl

theorem isObjLike_normKeysVal (kv : Json) : isObjLike (normKeysVal kv) = isObjLike kv := by
  cases kv <;> rfl

theorem chain_obj {p : Json}
    (h : isObjLike (jget (jget (jget p "saml") "attribute_mapping") "keys") = true) :
    ∃ pf sf af, p = Json.obj pf ∧ jgetF pf "saml" = Json.obj sf ∧
      jgetF sf "attribute_mapping" = Json.obj af := by
  cases p with
  | obj pf =>
    cases hs : jgetF pf "saml" with
    | obj sf =>
      cases ha : jgetF sf "attribute_mapping" with
      | obj af => exact ⟨pf, sf, af, rfl, hs, ha⟩
      | undef => simp [jget, hs, ha, isObjLike, Json.truthy] at h
      | null => simp [jget, hs, ha, isObjLike, Json.truthy] at h
      | bool b => simp [jget, hs, ha, isObjLike, Json.truthy] at h
      | num q => simp [jget, hs, ha, isObjLike, Json.truthy] at h
      | str s => simp [jget, hs, ha, isObjLike, Json.truthy] at h
      | arr xs => simp [jget, hs, ha, isObjLike, Json.truthy] at h
    | undef => simp [jget, hs, isObjLike, Json.truthy] at h
    | null => simp [jget, hs, isObjLike, Json.truthy] at h
    | bool b => simp [jget, hs, isObjLike, Json.truthy] at h
    | num q => simp [jget, hs, isObjLike, Json.truthy] at h
    | str s => simp [jget, hs, isObjLike, Json.truthy] at h
    | arr xs => simp [jget, hs, isObjLike, Json.truthy] at h
  | undef => simp [jget, isObjLike, Json.truthy] at h
  | null => simp [jget, isObjLike, Json.truthy] at h
  | bool b => simp [jget, isObjLike, Json.truthy] at h
  | num q => simp [jget, isObjLike, Json.truthy] at h
  | str s => simp [jget, isObjLike, Json.truthy] at h
  | arr xs => simp [jget, isObjLike, Json.truthy] at h

theorem updSamlStr_fix {p : Json} {f : String}
    (h : ∀ s, jget (jget p "saml") f = Json.str s → trimJS s = s) :
    updSamlStr p f = p := by
  unfold updSamlStr
  by_cases ht : (jget p "saml").truthy = true
  · rw [if_pos ht]
    cases hv : jget (jget p "saml") f with
    | str v =>
      have hfix := h v hv
      show setProp p "saml" (setProp (jget p "saml") f (Json.str (trimJS v))) = p
      rw [hfix, ← hv]
      rw [setProp_jget_self (jget p "saml") f (by rw [hv]; simp)]
      apply setProp_jget_self
      intro hc
      rw [hc] at ht
      simp [Json.truthy] at ht
    | undef => rfl
    | null => rfl
    | bool b => rfl
    | num q => rfl
    | arr xs => rfl
    | obj gs => rfl
  · rw [if_neg ht]

theorem updSamlStr_obj {pf : List (String × Json)} (f : String) :
    ∃ gs, updSamlStr (Json.obj pf) f = Json.obj gs := by
  unfold updSamlStr
  by_cases ht : (jget (Json.obj pf) "saml").truthy = true
  · rw [if_pos ht]
    cases hv : jget (jget (Json.obj pf) "saml") f with
    | str v => exact ⟨setField pf "saml" (setProp (jget (Json.obj pf) "saml") f
        (Json.str (trimJS v))), rfl⟩
    | undef => exact ⟨pf, rfl⟩
    | null => exact ⟨pf, rfl⟩
    | bool b => exact ⟨pf, rfl⟩
    | num q => exact ⟨pf, rfl⟩
    | arr xs => exact ⟨pf, rfl⟩
    | obj gs => exact ⟨pf, rfl⟩
  · rw [if_neg ht]
    exact ⟨pf, rfl⟩

theorem updSamlStr_cases (p : Json) (f : String) :
    (updSamlStr p f = p ∧ ∀ v, jget (jget p "saml") f ≠ Json.str v) ∨
    ∃ pf sf v, p = Json.obj pf ∧ jgetF pf "saml" = Json.obj sf ∧
      jgetF sf f = Json.str v ∧
      updSamlStr p f =
        Json.obj (setField pf "saml" (Json.obj (setField sf f (Json.str (trimJS v))))) := by
  unfold updSamlStr
  by_cases ht : (jget p "saml").truthy = true
  · rw [if_pos ht]
    cases hv : jget (jget p "saml") f with
    | str v =>
      right
      cases p with
      | obj pf =>
        cases hs : jgetF pf "saml" with
        | obj sf =>
          have hjs : jget (Json.obj pf) "saml" = Json.obj sf := by simp [jget, hs]
          rw [hjs] at hv
          refine ⟨pf, sf, v, rfl, hs, by simpa [jget] using hv, ?_⟩
          show setProp (Json.obj pf) "saml"
              (setProp (jget (Json.obj pf) "saml") f (Json.str (trimJS v)))
            = Json.obj (setField pf "saml" (Json.obj (setField sf f (Json.str (trimJS v)))))
          rw [hjs]
          simp [setProp, jget, hv]
        | undef => rw [show jget (Json.obj pf) "saml" = Json.undef by simp [jget, hs]] at hv; simp [jget] at hv
        | null => rw [show jget (Json.obj pf) "saml" = Json.null by simp [jget, hs]] at hv; simp [jget] at hv
        | bool b => rw [show jget (Json.obj pf) "saml" = Json.bool b by simp [jget, hs]] at hv; simp [jget] at hv
        | num q => rw [show jget (Json.obj pf) "saml" = Json.num q by simp [jget, hs]] at hv; simp [jget] at hv
        | str s2 => rw [show jget (Json.obj pf) "saml" = Json.str s2 by simp [jget, hs]] at hv; simp [jget] at hv
        | arr xs => rw [show jget (Json.obj pf) "saml" = Json.arr xs by simp [jget, hs]] at hv; simp [jget] at hv
      | undef => simp [jget] at hv
      | null => simp [jget] at hv
      | bool b => simp [jget] at hv
      | num q => simp [jget] at hv
      | str s2 => simp [jget] at hv
      | arr xs => simp [jget] at hv
    | undef => exact Or.inl ⟨rfl, fun v2 hv2 => by cases hv2⟩
    | null => exact Or.inl ⟨rfl, fun v2 hv2 => by cases hv2⟩
    | bool b => exact Or.inl ⟨rfl, fun v2 hv2 => by cases hv2⟩
    | num q => exact Or.inl ⟨rfl, fun v2 hv2 => by cases hv2⟩
    | arr xs => exact Or.inl ⟨rfl, fun v2 hv2 => by cases hv2⟩
    | obj gs => exact Or.inl ⟨rfl, fun v2 hv2 => by cases hv2⟩
  · rw [if_neg ht]
    refine Or.inl ⟨rfl, fun v2 hv2 => ?_⟩
    cases hsm : jget p "saml" with
    | obj sf => rw [hsm] at ht; simp [Json.truthy] at ht
    | undef => rw [hsm] at hv2; cases hv2
    | null => rw [hsm] at hv2; cases hv2
    | bool b => rw [hsm] at hv2; simp [jget] at hv2
    | num q => rw [hsm] at hv2; simp [jget] at hv2
    | str s2 => rw [hsm] at hv2; simp [jget] at hv2
    | arr xs => rw [hsm] at hv2; simp [jget] at hv2

theorem updSamlStr_field_result (p : Json) (f : String) :
    ∀ s, jget (jget (updSamlStr p f) "saml") f = Json.str s → trimJS s = s := by
  intro s hs
  rcases updSamlStr_cases p f with ⟨hid, hnostr⟩ | ⟨pf, sf, v, hp, hsml, hf, hres⟩
  · rw [hid] at hs
    exact absurd hs (hnostr s)
  · rw [hres] at hs
    rw [show jget (Json.obj (setField pf "saml"
        (Json.obj (setField sf f (Json.str (trimJS v)))))) "saml"
        = Json.obj (setField sf f (Json.str (trimJS v))) from by
      simp [jget, jgetF_setField_same]] at hs
    rw [show jget (Json.obj (setField sf f (Json.str (trimJS v)))) f
        = Json.str (trimJS v) from by simp [jget, jgetF_setField_same]] at hs
    cases hs
    exact trimJS_idem v

theorem updSamlStr_other_field (p : Json) {f f' : String} (hne : f' ≠ f) :
    jget (jget (updSamlStr p f) "saml") f' = jget (jget p "saml") f' := by
  rcases updSamlStr_cases p f with ⟨hid, _⟩ | ⟨pf, sf, v, hp, hsml, hf, hres⟩
  · rw [hid]
  · rw [hres, hp]
    simp [jget, jgetF_setField_same, jgetF_setField_ne _ _ hne, hsml]

theorem jget_updSamlStr_ne (p : Json) (f : String) {k : String} (hk : k ≠ "saml") :
    jget (updSamlStr p f) k = jget p k := by
  rcases updSamlStr_cases p f with ⟨hid, _⟩ | ⟨pf, sf, v, hp, hsml, hf, hres⟩
  · rw [hid]
  · rw [hres, hp]
    simp [jget, jgetF_setField_ne _ _ hk]

theorem normMeta_url_fix (p : Json) :
    ∀ s, jget (jget (normMeta p) "saml") "metadata_url" = Json.str s → trimJS s = s := by
  intro s hs
  unfold normMeta at hs
  rw [updSamlStr_other_field _ (show "metadata_url" ≠ "metadata_xml" from by decide)] at hs
  exact updSamlStr_field_result p "metadata_url" s hs

theorem normMeta_xml_fix (p : Json) :
    ∀ s, jget (jget (normMeta p) "saml") "metadata_xml" = Json.str s → trimJS s = s := by
  intro s hs
  unfold normMeta at hs
  exact updSamlStr_field_result _ "metadata_xml" s hs

theorem jget_normMeta_ne (p : Json) {k : String} (hk : k ≠ "saml") :
    jget (normMeta p) k = jget p k := by
  unfold normMeta
  rw [jget_updSamlStr_ne _ _ hk, jget_updSamlStr_ne _ _ hk]

theorem normMeta_fix {p : Json}
    (hu : ∀ s, jget (jget p "saml") "metadata_url" = Json.str s → trimJS s = s)
    (hx : ∀ s, jget (jget p "saml") "metadata_xml" = Json.str s → trimJS s = s) :
    normMeta p = p := by
  unfold normMeta
  rw [updSamlStr_fix hu, updSamlStr_fix hx]

theorem normMeta_obj (pf : List (String × Json)) :
    ∃ gs, normMeta (Json.obj pf) = Json.obj gs := by
  unfold normMeta
  obtain ⟨gs1, h1⟩ := @updSamlStr_obj pf "metadata_url"
  rw [h1]
  exact updSamlStr_obj "metadata_xml"

theorem normKeys_cases (p : Json) :
    normKeys p = p ∨
    ∃ pf sf af kv, p = Json.obj pf ∧ jgetF pf "saml" = Json.obj sf ∧
      jgetF sf "attribute_mapping" = Json.obj af ∧ jgetF af "keys" = kv ∧
      isObjLike kv = true ∧
      normKeys p = Json.obj (setField pf "saml" (Json.obj (setField sf "attribute_mapping"
        (Json.obj (setField af "keys" (normKeysVal kv)))))) := by
  unfold normKeys
  by_cases hk : isObjLike (jget (jget (jget p "saml") "attribute_mapping") "keys") = true
  · right
    obtain ⟨pf, sf, af, hp, hs, ha⟩ := chain_obj hk
    subst hp
    have hjs : jget (Json.obj pf) "saml" = Json.obj sf := by simp [jget, hs]
    have hja : jget (Json.obj sf) "attribute_mapping" = Json.obj af := by simp [jget, ha]
    refine ⟨pf, sf, af, jgetF af "keys", rfl, hs, ha, rfl, ?_, ?_⟩
    · rw [hjs, hja] at hk
      simpa [jget] using hk
    · rw [if_pos hk]
      unfold setKeysPath
      rw [hjs, hja]
      simp [jget, setProp, ha]
  · rw [if_neg hk]
    left
    rfl

theorem jget_normKeys_ne (p : Json) {k : String} (hk : k ≠ "saml") :
    jget (normKeys p) k = jget p k := by
  rcases normKeys_cases p with hid | ⟨pf, sf, af, kv, hp, _, _, _, _, hres⟩
  · rw [hid]
  · rw [hres, hp]
    simp [jget, jgetF_setField_ne _ _ hk]

theorem normKeys_saml_field (p : Json) {f : String} (hf : f ≠ "attribute_mapping") :
    jget (jget (normKeys p) "saml") f = jget (jget p "saml") f := by
  rcases normKeys_cases p with hid | ⟨pf, sf, af, kv, hp, hs, _, _, _, hres⟩
  · rw [hid]
  · rw [hres, hp]
    simp [jget, jgetF_setField_same, jgetF_setField_ne _ _ hf, hs]

theorem normKeys_obj (pf : List (String × Json)) :
    ∃ gs, normKeys (Json.obj pf) = Json.obj gs := by
  rcases normKeys_cases (Json.obj pf) with hid | ⟨pf2, sf, af, kv, hp, _, _, _, _, hres⟩
  · exact ⟨pf, hid⟩
  · cases hp
    exact ⟨_, hres⟩

theorem normKeys_idem (p : Json) : normKeys (normKeys p) = normKeys p := by
  rcases normKeys_cases p with hid | ⟨pf, sf, af, kv, hp, hs, ha, hkv, hobj, hres⟩
  · rw [hid]
    exact hid
  · rw [hres]
    have c1 : jget (Json.obj (setField pf "saml" (Json.obj (setField sf "attribute_mapping"
        (Json.obj (setField af "keys" (normKeysVal kv))))))) "saml"
        = Json.obj (setField sf "attribute_mapping"
          (Json.obj (setField af "keys" (normKeysVal kv)))) := by
      simp [jget, jgetF_setField_same]
    have c2 : jget (Json.obj (setField sf "attribute_mapping"
        (Json.obj (setField af "keys" (normKeysVal kv))))) "attribute_mapping"
        = Json.obj (setField af "keys" (normKeysVal kv)) := by
      simp [jget, jgetF_setField_same]
    have c3 : jget (Json.obj (setField af "keys" (normKeysVal kv))) "keys"
        = normKeysVal kv := by
      simp [jget, jgetF_setField_same]
    simp only [normKeys, setKeysPath]
    rw [c1, c2, c3, isObjLike_normKeysVal, if_pos hobj, normKeysVal_idem]
    have e3 : setProp (Json.obj (setField af "keys" (normKeysVal kv))) "keys"
        (normKeysVal kv) = Json.obj (setField af "keys" (normKeysVal kv)) := by
      simp only [setProp]
      rw [setField_of_lookupF (lookupF_setField_same _ _ _)]
    rw [e3]
    have e2 : setProp (Json.obj (setField sf "attribute_mapping"
        (Json.obj (setField af "keys" (normKeysVal kv))))) "attribute_mapping"
        (Json.obj (setField af "keys" (normKeysVal kv)))
        = Json.obj (setField sf "attribute_mapping"
          (Json.obj (setField af "keys" (normKeysVal kv)))) := by
      simp only [setProp]
      rw [setField_of_lookupF (lookupF_setField_same _ _ _)]
    rw [e2]
    simp only [setProp]
    rw [setField_of_lookupF (lookupF_setField_same _ _ _)]

theorem normDomains_obj_some {fs : List (String × Json)} {p1 : Json}
    (h : normDomains (Json.obj fs) = some p1) :
    (p1 = Json.obj fs ∧ ∀ l, jgetF fs "domains" ≠ Json.arr l) ∨
    (∃ ds ds', jgetF fs "domains" = Json.arr ds ∧
      ds.mapM normDomainItem = some ds' ∧
      p1 = Json.obj (setField fs "domains" (Json.arr ds'))) := by
  unfold normDomains at h
  have hg : getProp? (Json.obj fs) "domains" = some (jgetF fs "domains") := rfl
  rw [hg] at h
  cases hd : jgetF fs "domains" with
  | arr ds =>
    rw [hd] at h
    have h2 : Option.map (fun ds' => setProp (Json.obj fs) "domains" (Json.arr ds'))
        (mapM normDomainItem ds) = some p1 := h
    right
    cases hm : ds.mapM normDomainItem with
    | none => rw [hm] at h2; cases h2
    | some ds' =>
      rw [hm] at h2
      simp only [Option.map_some', Option.some.injEq] at h2
      exact ⟨ds, ds', rfl, hm, by rw [← h2]; rfl⟩
  | undef =>
    rw [hd] at h
    have h2 : some (Json.obj fs) = some p1 := h
    simp only [Option.some.injEq] at h2
    exact Or.inl ⟨h2.symm, fun l hl => by cases hl⟩
  | null =>
    rw [hd] at h
    have h2 : some (Json.obj fs) = some p1 := h
    simp only [Option.some.injEq] at h2
    exact Or.inl ⟨h2.symm, fun l hl => by cases hl⟩
  | bool b =>
    rw [hd] at h
    have h2 : some (Json.obj fs) = some p1 := h
    simp only [Option.some.injEq] at h2
    exact Or.inl ⟨h2.symm, fun l hl => by cases hl⟩
  | num q =>
    rw [hd] at h
    have h2 : some (Json.obj fs) = some p1 := h
    simp only [Option.some.injEq] at h2
    exact Or.inl ⟨h2.symm, fun l hl => by cases hl⟩
  | str s =>
    rw [hd] at h
    have h2 : some (Json.obj fs) = some p1 := h
    simp only [Option.some.injEq] at h2
    exact Or.inl ⟨h2.symm, fun l hl => by cases hl⟩
  | obj gs =>
    rw [hd] at h
    have h2 : some (Json.obj fs) = some p1 := h
    simp only [Option.some.injEq] at h2
    exact Or.inl ⟨h2.symm, fun l hl => by cases hl⟩

/-- C4: `normalizeSamlConfig` is idempotent on every payload it accepts:
whenever `normalizeSamlConfig x` returns a value (the source function
does not throw), running it again on that value returns the same value
unchanged. -/
theorem normalizeSamlConfig_idem {x y : Json}
    (h : normalizeSamlConfig x = some y) : normalizeSamlConfig y = some y := by
  cases x with
  | null => cases h
  | undef => cases h
  | bool b =>
    have hb : normalizeSamlConfig (Json.bool b) = some (Json.bool b) := rfl
    rw [hb] at h
    cases h
    exact hb
  | num q =>
    have hb : normalizeSamlConfig (Json.num q) = some (Json.num q) := rfl
    rw [hb] at h
    cases h
    exact hb
  | str s =>
    have hb : normalizeSamlConfig (Json.str s) = some (Json.str s) := rfl
    rw [hb] at h
    cases h
    exact hb
  | arr xs =>
    have hb : normalizeSamlConfig (Json.arr xs) = some (Json.arr xs) := rfl
    rw [hb] at h
    cases h
    exact hb
  | obj fs =>
    unfold normalizeSamlConfig at h
    cases hD : normDomains (Json.obj fs) with
    | none => rw [hD] at h; cases h
    | some p1 =>
      rw [hD] at h
      simp only [Option.map_some', Option.some.injEq] at h
      have hurl : ∀ s, jget (jget y "saml") "metadata_url" = Json.str s → trimJS s = s := by
        intro s hs
        rw [← h] at hs
        rw [normKeys_saml_field _ (show "metadata_url" ≠ "attribute_mapping" from by decide)] at hs
        exact normMeta_url_fix p1 s hs
      have hxml : ∀ s, jget (jget y "saml") "metadata_xml" = Json.str s → trimJS s = s := by
        intro s hs
        rw [← h] at hs
        rw [normKeys_saml_field _ (show "metadata_xml" ≠ "attribute_mapping" from by decide)] at hs
        exact normMeta_xml_fix p1 s hs
      have hkeysfix : normKeys y = y := by
        rw [← h]
        exact normKeys_idem (normMeta p1)
      have hmetafix : normMeta y = y := normMeta_fix hurl hxml
      have hyobj : ∃ kf, y = Json.obj kf := by
        rcases normDomains_obj_some hD with ⟨hp1, _⟩ | ⟨ds, ds', hds, hmap, hp1⟩
        · subst hp1
          obtain ⟨mf, hmf⟩ := normMeta_obj fs
          rw [← h, hmf]
          exact normKeys_obj mf
        · subst hp1
          obtain ⟨mf, hmf⟩ := normMeta_obj (setField fs "domains" (Json.arr ds'))
          rw [← h, hmf]
          exact normKeys_obj mf
      obtain ⟨kf, hkf⟩ := hyobj
      have hND : normDomains y = some y := by
        rcases normDomains_obj_some hD with ⟨hp1, hnoarr⟩ | ⟨ds, ds', hds, hmap, hp1⟩
        · have hdv : jgetF kf "domains" = jgetF fs "domains" := by
            have h2 : jget y "domains" = jget (Json.obj fs) "domains" := by
              rw [← h, hp1,
                jget_normKeys_ne _ (show "domains" ≠ "saml" from by decide),
                jget_normMeta_ne _ (show "domains" ≠ "saml" from by decide)]
            rw [hkf] at h2
            exact h2
          rw [hkf]
          unfold normDomains
          rw [show getProp? (Json.obj kf) "domains" = some (jgetF kf "domains") from rfl]
          rw [hdv]
          cases hfd : jgetF fs "domains" with
          | arr l => exact absurd hfd (hnoarr l)
          | undef => rfl
          | null => rfl
          | bool b => rfl
          | num q => rfl
          | str s => rfl
          | obj gs => rfl
        · have hdv : jgetF kf "domains" = Json.arr ds' := by
            have h2 : jget y "domains" = Json.arr ds' := by
              rw [← h, hp1,
                jget_normKeys_ne _ (show "domains" ≠ "saml" from by decide),
                jget_normMeta_ne _ (show "domains" ≠ "saml" from by decide)]
              show jgetF (setField fs "domains" (Json.arr ds')) "domains" = Json.arr ds'
              exact jgetF_setField_same _ _ _
            rw [hkf] at h2
            exact h2
          have hmap2 : ds'.mapM normDomainItem = some ds' :=
            mapM_stable (fun a b hab => normDomainItem_stable hab) hmap
          rw [hkf]
          unfold normDomains
          rw [show getProp? (Json.obj kf) "domains" = some (jgetF kf "domains") from rfl]
          rw [hdv]
          show Option.map (fun ds2 => setProp (Json.obj kf) "domains" (Json.arr ds2))
              (mapM normDomainItem ds') = some (Json.obj kf)
          rw [hmap2]
          simp only [Option.map_some', Option.some.injEq]
          show setProp (Json.obj kf) "domains" (Json.arr ds') = Json.obj kf
          have := setProp_jget_self (Json.obj kf) "domains"
            (by show jgetF kf "domains" ≠ Json.undef; rw [hdv]; simp)
          rw [show jget (Json.obj kf) "domains" = jgetF kf "domains" from rfl, hdv] at this
          exact this
      show (normDomains y).map (fun p1 => normKeys (normMeta p1)) = some y
      rw [hND]
      simp only [Option.map_some', Option.some.injEq]
      rw [hmetafix, hkeysfix]

/-! ## Handler path analysis -/

theorem handler_resp_cases {ext : Externals} {norm : Json → Option Json}
    {ev : Event} {r : Response} (h : handlerCore ext norm ev = some r) :
    (ev.httpMethod = "OPTIONS" ∧ r = ⟨204, cors, Json.str ""⟩) ∨ (∃ xs, r = ok xs) ∨
    (∃ m, r = fail 405 "METHOD_NOT_ALLOWED" m []) ∨
    (∃ m e, r = fail 400 "INVALID_ARGUMENT" m e) := by
  simp only [handlerCore] at h
  repeat' split at h
  all_goals try cases h
  all_goals first
    | exact Or.inl ⟨by assumption, rfl⟩
    | exact Or.inr (Or.inl ⟨_, rfl⟩)
    | exact Or.inr (Or.inr (Or.inl ⟨_, rfl⟩))
    | exact Or.inr (Or.inr (Or.inr ⟨_, _, rfl⟩))

theorem errCodeOf_ok (xs : List Json) : errCodeOf (ok xs) = none := rfl

theorem errCodeOf_fail (c : Nat) (s m : String) (e : List ErrItem) :
    errCodeOf (fail c s m e) = some (c : Rat) := rfl

theorem errStatusOf_ok (xs : List Json) : errStatusOf (ok xs) = none := rfl

theorem errStatusOf_fail (c : Nat) (s m : String) (e : List ErrItem) :
    errStatusOf (fail c s m e) = some s := rfl

/-- C9: in every failure envelope the handler can produce, the HTTP
status code equals the numeric `error.code` in the body (the `fail`
constructor reuses its `code` argument for both); in particular an
`INVALID_ARGUMENT` failure always pairs status 400 with `error.code`
400, and a `METHOD_NOT_ALLOWED` failure pairs 405 with 405. -/
theorem status_code_matches_error_code (ext : Externals)
    (norm : Json → Option Json) (ev : Event) (r : Response)
    (h : handlerCore ext norm ev = some r) :
    (∀ q, errCodeOf r = some q → (r.statusCode : Rat) = q) ∧
    (errStatusOf r = some "INVALID_ARGUMENT" →
      r.statusCode = 400 ∧ errCodeOf r = some 400) ∧
    (errStatusOf r = some "METHOD_NOT_ALLOWED" →
      r.statusCode = 405 ∧ errCodeOf r = some 405) := by
  rcases handler_resp_cases h with ⟨_, hr⟩ | ⟨xs, hr⟩ | ⟨m, hr⟩ | ⟨m, e, hr⟩ <;> subst hr
  · refine ⟨fun q hq => ?_, fun hs => ?_, fun hs => ?_⟩
    · rw [show errCodeOf ⟨204, cors, Json.str ""⟩ = none from rfl] at hq
      cases hq
    · rw [show errStatusOf ⟨204, cors, Json.str ""⟩ = none from rfl] at hs
      cases hs
    · rw [show errStatusOf ⟨204, cors, Json.str ""⟩ = none from rfl] at hs
      cases hs
  · refine ⟨fun q hq => ?_, fun hs => ?_, fun hs => ?_⟩
    · rw [errCodeOf_ok] at hq
      cases hq
    · rw [errStatusOf_ok] at hs
      cases hs
    · rw [errStatusOf_ok] at hs
      cases hs
  · refine ⟨fun q hq => ?_, fun hs => ?_, fun hs => ?_⟩
    · rw [errCodeOf_fail] at hq
      cases hq
      rfl
    · rw [errStatusOf_fail] at hs
      simp at hs
    · exact ⟨rfl, rfl⟩
  · refine ⟨fun q hq => ?_, fun hs => ?_, fun hs => ?_⟩
    · rw [errCodeOf_fail] at hq
      cases hq
      rfl
    · exact ⟨rfl, rfl⟩
    · rw [errStatusOf_fail] at hs
      simp at hs

/-- C9 witness: a PUT request is answered with the 405
`METHOD_NOT_ALLOWED` envelope whose `error.code` equals its status. -/
theorem status_code_matches_error_code_witness :
    (fail 405 "METHOD_NOT_ALLOWED" "Use POST" []).statusCode = 405 ∧
    errCodeOf (fail 405 "METHOD_NOT_ALLOWED" "Use POST" []) = some 405 :=
  (status_code_matches_error_code extDefault normalizeSamlConfig
    ⟨"PUT", none, BodyField.absent⟩ _ rfl).2.2 rfl

/-- C1 (amended): every non-OPTIONS request the handler answers is
answered through the `ok` or `fail` constructor, and the resulting JSON
body carries exactly one of the fields `result` / `error`; `ok` bodies
carry only `result` and `fail` bodies only `error`.  (The OPTIONS
preflight branch returns 204 with an empty non-JSON body and neither
field — see the counterexample.) -/
theorem xor_envelope (ext : Externals) (norm : Json → Option Json)
    (ev : Event) (r : Response) (h : handlerCore ext norm ev = some r)
    (hm : ev.httpMethod ≠ "OPTIONS") :
    ((∃ xs, r = ok xs) ∨ (∃ c st m e, r = fail c st m e)) ∧
    ((hasField r.body "result" = true ∧ hasField r.body "error" = false) ∨
     (hasField r.body "result" = false ∧ hasField r.body "error" = true)) ∧
    (∀ xs, jsonKeys (ok xs).body = ["result"]) ∧
    (∀ c st m e, jsonKeys (fail c st m e).body = ["error"]) := by
  rcases handler_resp_cases h with ⟨hopt, _⟩ | ⟨xs, hr⟩ | ⟨m, hr⟩ | ⟨m, e, hr⟩
  · exact absurd hopt hm
  · subst hr
    exact ⟨Or.inl ⟨xs, rfl⟩, Or.inl ⟨rfl, rfl⟩, fun _ => rfl, fun _ _ _ _ => rfl⟩
  · subst hr
    exact ⟨Or.inr ⟨_, _, _, _, rfl⟩, Or.inr ⟨rfl, rfl⟩, fun _ => rfl, fun _ _ _ _ => rfl⟩
  · subst hr
    exact ⟨Or.inr ⟨_, _, _, _, rfl⟩, Or.inr ⟨rfl, rfl⟩, fun _ => rfl, fun _ _ _ _ => rfl⟩

/-- C1 witness: a concrete GET health request is answered through `ok`
with a body carrying `result` and not `error`. -/
theorem xor_envelope_witness :
    (hasField (ok [healthResult "v20.11.1"]).body "result" = true ∧
     hasField (ok [healthResult "v20.11.1"]).body "error" = false) ∨
    (hasField (ok [healthResult "v20.11.1"]).body "result" = false ∧
     hasField (ok [healthResult "v20.11.1"]).body "error" = true) :=
  (xor_envelope extDefault normalizeSamlConfig ⟨"GET", none, BodyField.absent⟩
    (ok [healthResult "v20.11.1"]) rfl (by decide)).2.1

/-- C1 counterexample: the OPTIONS preflight is a request the handler
processes, and its response body is the empty string, which carries
neither a `result` nor an `error` field — so "never neither", quantified
over every handler code path, fails as stated. -/
theorem xor_envelope_counterexample :
    handlerCore extDefault normalizeSamlConfig ⟨"OPTIONS", none, BodyField.absent⟩
      = some ⟨204, cors, Json.str ""⟩ ∧
    hasField (Json.str "") "result" = false ∧
    hasField (Json.str "") "error" = false :=
  ⟨rfl, rfl, rfl⟩

/-- C3: a POST whose (coerced, trimmed) mode is not one of the three
recognized modes is rejected with the 400 `INVALID_ARGUMENT` envelope
carrying exactly the one `invalid_mode` error item, and a POST in a
recognized SAML mode whose payload fails the object guard is rejected
with the one `invalid_payload` item — in both cases identically for
every normalizer, i.e. before `normalizeSamlConfig` can be invoked. -/
theorem dispatcher_rejects_before_normalization (ext : Externals)
    (qm : Option String) (bf : BodyField) (b : Json)
    (hb : parseBody bf = b) (ht : b.truthy = true) :
    ((extractMode b ≠ "validate_envelope_contract" ∧
      extractMode b ≠ "validate_saml_config" ∧
      extractMode b ≠ "audit_saml_config") →
      ∀ norm, handlerCore ext norm ⟨"POST", qm, bf⟩ =
        some (fail 400 "INVALID_ARGUMENT" "Invalid mode" [invalidModeItem])) ∧
    (((extractMode b = "validate_saml_config" ∨ extractMode b = "audit_saml_config") ∧
      ¬((jget b "payload").truthy = true ∧ (jget b "payload").typeOf = "object")) →
      ∀ norm, handlerCore ext norm ⟨"POST", qm, bf⟩ =
        some (fail 400 "INVALID_ARGUMENT" "payload must be an object"
          [invalidPayloadItem])) ∧
    invalidModeItem.reason = "invalid_mode" ∧
    invalidPayloadItem.reason = "invalid_payload" ∧
    [invalidModeItem].length = 1 ∧ [invalidPayloadItem].length = 1 := by
  refine ⟨?_, ?_, rfl, rfl, rfl, rfl⟩
  · rintro ⟨h1, h2, h3⟩ norm
    simp only [handlerCore]
    rw [if_neg (show ¬("POST" = "OPTIONS") from by decide),
        if_neg (show ¬("POST" = "GET") from by decide),
        if_neg (show ¬("POST" ≠ "POST") from by decide), hb,
        if_neg (show ¬((!b.truthy) = true) from by simp [ht]),
        if_neg h1, if_pos ⟨h2, h3⟩]
  · rintro ⟨hm, hp⟩ norm
    have h1 : extractMode b ≠ "validate_envelope_contract" := by
      rcases hm with hm | hm <;> rw [hm] <;> decide
    have h2 : ¬(extractMode b ≠ "validate_saml_config" ∧
        extractMode b ≠ "audit_saml_config") := by
      rcases hm with hm | hm
      · exact fun hc => hc.1 hm
      · exact fun hc => hc.2 hm
    simp only [handlerCore]
    rw [if_neg (show ¬("POST" = "OPTIONS") from by decide),
        if_neg (show ¬("POST" = "GET") from by decide),
        if_neg (show ¬("POST" ≠ "POST") from by decide), hb,
        if_neg (show ¬((!b.truthy) = true) from by simp [ht]),
        if_neg h1, if_neg h2, if_pos]
    rcases Decidable.not_and_iff_or_not.mp hp with hp1 | hp2
    · simp only [Bool.or_eq_true, Bool.not_eq_true']
      left
      exact Bool.not_eq_true _ ▸ (by revert hp1; cases (jget b "payload").truthy <;> simp)
    · simp only [Bool.or_eq_true]
      right
      simpa using hp2

/-- C3 witness: `mode: "bogus"` with an otherwise valid body yields the
400 `INVALID_ARGUMENT` response with the single error item whose
`reason` is `invalid_mode`, whatever normalizer is plugged in. -/
theorem dispatcher_rejects_before_normalization_witness :
    handlerCore extDefault normalizeSamlConfig
      ⟨"POST", none, BodyField.parsed (Json.obj [("mode", Json.str "bogus"),
        ("payload", sampleCfg)])⟩
      = some (fail 400 "INVALID_ARGUMENT" "Invalid mode" [invalidModeItem]) :=
  (dispatcher_rejects_before_normalization extDefault none
    (BodyField.parsed (Json.obj [("mode", Json.str "bogus"), ("payload", sampleCfg)]))
    (Json.obj [("mode", Json.str "bogus"), ("payload", sampleCfg)]) rfl rfl).1
    (by refine ⟨?_, ?_, ?_⟩ <;> decide) normalizeSamlConfig

/-! ## Metadata exactly-one analysis -/

theorem nodup_lookupF_of_mem {fs : List (String × Json)} {k : String} {v : Json}
    (hnd : (fs.map Prod.fst).Nodup) (hm : (k, v) ∈ fs) :
    lookupF fs k = some v := by
  induction fs with
  | nil => simp at hm
  | cons kv rest ih =>
    obtain ⟨k0, v0⟩ := kv
    simp only [List.map_cons, List.nodup_cons] at hnd
    rcases List.mem_cons.mp hm with h1 | h1
    · cases h1
      simp [lookupF]
    · have hk : k0 ≠ k := by
        intro hh
        subst hh
        exact hnd.1 (List.mem_map.mpr ⟨(k0, v), h1, rfl⟩)
      simp [lookupF, hk]
      exact ih hnd.2 h1

theorem metaOneOf_iff (gs : List (String × Json)) :
    metaOneOf gs = true ↔
      presentF gs "metadata_url" ≠ presentF gs "metadata_xml" := by
  unfold metaOneOf
  cases hu : presentF gs "metadata_url" <;> cases hx : presentF gs "metadata_xml" <;> simp

theorem normalize_top_fst {fs : List (String × Json)} {n : Json}
    (h : normalizeSamlConfig (Json.obj fs) = some n) :
    ∃ gs, n = Json.obj gs ∧ gs.map Prod.fst = fs.map Prod.fst := by
  unfold normalizeSamlConfig at h
  cases hD : normDomains (Json.obj fs) with
  | none => rw [hD] at h; cases h
  | some p1 =>
    rw [hD] at h
    simp only [Option.map_some', Option.some.injEq] at h
    have hp1 : ∃ g1, p1 = Json.obj g1 ∧ g1.map Prod.fst = fs.map Prod.fst := by
      rcases normDomains_obj_some hD with ⟨hp1, _⟩ | ⟨ds, ds', hds, _, hp1⟩
      · exact ⟨fs, hp1, rfl⟩
      · refine ⟨setField fs "domains" (Json.arr ds'), hp1, ?_⟩
        exact map_fst_setField _ (by rw [lookupF_eq_of_jgetF hds (by simp)]; rfl)
    obtain ⟨g1, hp1, hg1⟩ := hp1
    subst hp1
    have hmeta : ∀ f (g : List (String × Json)), ∃ g2,
        updSamlStr (Json.obj g) f = Json.obj g2 ∧ g2.map Prod.fst = g.map Prod.fst := by
      intro f g
      rcases updSamlStr_cases (Json.obj g) f with ⟨hid, _⟩ | ⟨pf, sf, v, hpf, hsml, _, hres⟩
      · exact ⟨g, hid, rfl⟩
      · cases hpf
        refine ⟨_, hres, ?_⟩
        exact map_fst_setField _ (by rw [lookupF_eq_of_jgetF hsml (by simp)]; rfl)
    obtain ⟨g2, hg2, hg2f⟩ := hmeta "metadata_url" g1
    obtain ⟨g3, hg3, hg3f⟩ := hmeta "metadata_xml" g2
    have hg4 : ∃ g4, normKeys (Json.obj g3) = Json.obj g4 ∧
        g4.map Prod.fst = g3.map Prod.fst := by
      rcases normKeys_cases (Json.obj g3) with hid | ⟨pf, sf, af, kv, hpf, hsml, _, _, _, hres⟩
      · exact ⟨g3, hid, rfl⟩
      · cases hpf
        refine ⟨_, hres, ?_⟩
        exact map_fst_setField _ (by rw [lookupF_eq_of_jgetF hsml (by simp)]; rfl)
    obtain ⟨g4, hg4, hg4f⟩ := hg4
    refine ⟨g4, ?_, by rw [hg4f, hg3f, hg2f, hg1]⟩
    rw [← h]
    show normKeys (updSamlStr (updSamlStr (Json.obj g1) "metadata_url") "metadata_xml") = _
    rw [hg2, hg3, hg4]

theorem normalize_meta_presence {p n : Json} (f : String)
    (hf1 : f = "metadata_url" ∨ f = "metadata_xml")
    (h : normalizeSamlConfig p = some n) :
    isUndef (jget (jget n "saml") f) = isUndef (jget (jget p "saml") f) := by
  have hff : f ≠ "attribute_mapping" := by
    rcases hf1 with h2 | h2 <;> (subst h2; decide)
  have hupd : ∀ (q : Json) (f0 : String),
      isUndef (jget (jget (updSamlStr q f0) "saml") f)
        = isUndef (jget (jget q "saml") f) := by
    intro q f0
    rcases updSamlStr_cases q f0 with ⟨hid, _⟩ | ⟨pf, sf, v, hpf, hsml, hfv, hres⟩
    · rw [hid]
    · subst hpf
      rw [hres]
      by_cases hsame : f = f0
      · subst hsame
        rw [show jget (Json.obj (setField pf "saml"
            (Json.obj (setField sf f (Json.str (trimJS v)))))) "saml"
            = Json.obj (setField sf f (Json.str (trimJS v))) from by
          simp [jget, jgetF_setField_same]]
        rw [show jget (Json.obj (setField sf f (Json.str (trimJS v)))) f
            = Json.str (trimJS v) from by simp [jget, jgetF_setField_same]]
        rw [show jget (Json.obj pf) "saml" = Json.obj sf from by simp [jget, hsml]]
        rw [show jget (Json.obj sf) f = Json.str v from by simp [jget, hfv]]
        rfl
      · rw [show jget (Json.obj (setField pf "saml"
            (Json.obj (setField sf f0 (Json.str (trimJS v)))))) "saml"
            = Json.obj (setField sf f0 (Json.str (trimJS v))) from by
          simp [jget, jgetF_setField_same]]
        rw [show jget (Json.obj (setField sf f0 (Json.str (trimJS v)))) f
            = jgetF sf f from by simp [jget, jgetF_setField_ne _ _ hsame]]
        rw [show jget (Json.obj pf) "saml" = Json.obj sf from by simp [jget, hsml]]
        rfl
  cases p with
  | null => cases h
  | undef => cases h
  | bool b => cases (show normalizeSamlConfig (Json.bool b) = some (Json.bool b) from rfl)
      ▸ h with | refl => rfl
  | num q => cases (show normalizeSamlConfig (Json.num q) = some (Json.num q) from rfl)
      ▸ h with | refl => rfl
  | str s => cases (show normalizeSamlConfig (Json.str s) = some (Json.str s) from rfl)
      ▸ h with | refl => rfl
  | arr xs => cases (show normalizeSamlConfig (Json.arr xs) = some (Json.arr xs) from rfl)
      ▸ h with | refl => rfl
  | obj fs =>
    unfold normalizeSamlConfig at h
    cases hD : normDomains (Json.obj fs) with
    | none => rw [hD] at h; cases h
    | some p1 =>
      rw [hD] at h
      simp only [Option.map_some', Option.some.injEq] at h
      have e1 : isUndef (jget (jget n "saml") f)
          = isUndef (jget (jget p1 "saml") f) := by
        rw [← h]
        rw [normKeys_saml_field _ hff]
        show isUndef (jget (jget (updSamlStr (updSamlStr p1 "metadata_url")
          "metadata_xml") "saml") f) = _
        rw [hupd _ "metadata_xml", hupd _ "metadata_url"]
      rw [e1]
      rcases normDomains_obj_some hD with ⟨hp1, _⟩ | ⟨ds, ds', hds, _, hp1⟩
      · rw [hp1]
      · rw [hp1]
        show isUndef (jget (jgetF (setField fs "domains" (Json.arr ds')) "saml") f) = _
        rw [jgetF_setField_ne _ _ (by decide)]
        rfl

theorem vSaml_split (sf : List (String × Json)) :
    vSaml (Json.obj sf) = (vSamlOther (Json.obj sf) && metaOneOf sf) := rfl

theorem validateSamlOther_obj {n : Json} (hvo : validateSamlOther n = true) :
    ∃ gs, n = Json.obj gs := by
  cases n with
  | obj gs => exact ⟨gs, rfl⟩
  | undef => simp [validateSamlOther] at hvo
  | null => simp [validateSamlOther] at hvo
  | bool b => simp [validateSamlOther] at hvo
  | num q => simp [validateSamlOther] at hvo
  | str s => simp [validateSamlOther] at hvo
  | arr xs => simp [validateSamlOther] at hvo

theorem vSamlOther_obj {S : Json} (h : vSamlOther S = true) :
    ∃ sf, S = Json.obj sf := by
  cases S with
  | obj sf => exact ⟨sf, rfl⟩
  | undef => simp [vSamlOther] at h
  | null => simp [vSamlOther] at h
  | bool b => simp [vSamlOther] at h
  | num q => simp [vSamlOther] at h
  | str s => simp [vSamlOther] at h
  | arr xs => simp [vSamlOther] at h

theorem validateSaml_iff_metaXor {n : Json} (hvo : validateSamlOther n = true)
    (hnd : topNodup n) :
    validateSaml n = true ↔ hasMetaUrl n ≠ hasMetaXml n := by
  obtain ⟨gs, hgs⟩ := validateSamlOther_obj hvo
  subst hgs
  unfold topNodup at hnd
  unfold validateSamlOther at hvo
  simp only [Bool.and_eq_true, List.all_eq_true] at hvo
  obtain ⟨⟨⟨⟨⟨hall, hid⟩, hsaml⟩, hdom⟩, hcre⟩, hupd⟩ := hvo
  cases hlk : lookupF gs "saml" with
  | none =>
    exfalso
    unfold presentF jgetF at hsaml
    rw [hlk] at hsaml
    simp [isUndef] at hsaml
  | some S =>
    have hSmem : ("saml", S) ∈ gs := lookupF_mem hlk
    have hSget : jgetF gs "saml" = S := by unfold jgetF; rw [hlk]
    have hSund : isUndef S = false := by
      unfold presentF at hsaml
      rw [hSget] at hsaml
      simpa using hsaml
    have hSother : vSamlOther S = true := by
      have := hall _ hSmem
      simp only [Bool.and_eq_true, Bool.or_eq_true] at this
      rcases this.2 with h1 | h1
      · rw [h1] at hSund; cases hSund
      · simpa [topPropOkOther] using h1
    obtain ⟨sf, hsf⟩ := vSamlOther_obj hSother
    subst hsf
    have hurl : hasMetaUrl (Json.obj gs) = presentF sf "metadata_url" := by
      unfold hasMetaUrl presentF
      rw [show jget (Json.obj gs) "saml" = Json.obj sf from by simp [jget, hSget]]
      rfl
    have hxml : hasMetaXml (Json.obj gs) = presentF sf "metadata_xml" := by
      unfold hasMetaXml presentF
      rw [show jget (Json.obj gs) "saml" = Json.obj sf from by simp [jget, hSget]]
      rfl
    rw [hurl, hxml, ← metaOneOf_iff]
    constructor
    · intro hv
      unfold validateSaml at hv
      simp only [Bool.and_eq_true, List.all_eq_true] at hv
      have := hv.1.1.1.1.1 _ hSmem
      simp only [Bool.and_eq_true, Bool.or_eq_true] at this
      rcases this.2 with h1 | h1
      · rw [h1] at hSund; cases hSund
      · have h2 : vSaml (Json.obj sf) = true := by simpa [topPropOk] using h1
        rw [vSaml_split] at h2
        simp only [Bool.and_eq_true] at h2
        exact h2.2
    · intro hx
      unfold validateSaml
      simp only [Bool.and_eq_true, List.all_eq_true]
      refine ⟨⟨⟨⟨⟨?_, hid⟩, hsaml⟩, hdom⟩, hcre⟩, hupd⟩
      intro kv hkv
      have h0 := hall kv hkv
      simp only [Bool.and_eq_true, Bool.or_eq_true] at h0 ⊢
      refine ⟨h0.1, ?_⟩
      rcases h0.2 with h1 | h1
      · exact Or.inl h1
      · right
        by_cases hk : kv.1 = "saml"
        · have hv2 : kv.2 = Json.obj sf := by
            obtain ⟨k0, v0⟩ := kv
            simp only at hk
            subst hk
            have := nodup_lookupF_of_mem hnd hkv
            rw [hlk] at this
            have h4 := Option.some.inj this
            exact h4.symm
          rw [hk, hv2]
          show topPropOk "saml" (Json.obj sf) = true
          have : topPropOk "saml" (Json.obj sf) = vSaml (Json.obj sf) := by
            simp [topPropOk]
          rw [this, vSaml_split]
          rw [hk, hv2] at h1
          have h3 : vSamlOther (Json.obj sf) = true := by
            simpa [topPropOkOther] using h1
          simp [h3, hx]
        · have : topPropOkOther kv.1 kv.2 = topPropOk kv.1 kv.2 := by
            simp [topPropOkOther, hk]
          rw [← this]
          exact h1

theorem handler_validate_post (ext : Externals) (norm : Json → Option Json)
    (p : Json) (htr : p.truthy = true) (hobj : p.typeOf = "object") :
    handlerCore ext norm (postEvent "validate_saml_config" p) =
      match norm p with
      | none => none
      | some n =>
        if validateSaml n then
          some (ok [Json.obj [("type", Json.str "saml_config_validation"),
                              ("valid", Json.bool true), ("normalized", n)]])
        else
          some (fail 400 "INVALID_ARGUMENT" "SAML config schema validation failed"
            (ext.renderSamlErrs n)) := by
  simp only [handlerCore, postEvent, parseBody]
  rw [if_neg (show ¬(("POST" : String) = "OPTIONS") from by decide),
      if_neg (show ¬(("POST" : String) = "GET") from by decide),
      if_neg (show ¬(("POST" : String) ≠ "POST") from by decide)]
  rw [if_neg (show ¬((!(Json.obj [("mode", Json.str "validate_saml_config"),
      ("payload", p)]).truthy) = true) from by simp [Json.truthy])]
  have hmode : extractMode (Json.obj [("mode", Json.str "validate_saml_config"),
      ("payload", p)]) = "validate_saml_config" := rfl
  simp only [hmode]
  rw [if_neg (show ¬(("validate_saml_config" : String) = "validate_envelope_contract")
      from by decide)]
  rw [if_neg (show ¬(("validate_saml_config" : String) ≠ "validate_saml_config" ∧
      ("validate_saml_config" : String) ≠ "audit_saml_config") from by decide)]
  have hpay : jget (Json.obj [("mode", Json.str "validate_saml_config"),
      ("payload", p)]) "payload" = p := rfl
  simp only [hpay]
  rw [if_neg (show ¬((!p.truthy || decide (p.typeOf ≠ "object")) = true) from by
    simp [htr, hobj])]
  cases hn : norm p with
  | none => rfl
  | some n =>
    cases hv : validateSaml n with
    | true => simp [hv]
    | false => simp [hv]

/-- C2: for a payload that is valid in every other respect (the
compiled schema minus the metadata `oneOf` clause accepts its normal
form) and has distinct top-level keys, validation accepts it exactly
when its `saml` block carries exactly one of `metadata_url` /
`metadata_xml`: both present or neither present yields the 400 failure
envelope, exactly one yields the `valid: true` result.  Normalization
does not change which metadata fields are present. -/
theorem metadata_exactly_one (ext : Externals) (p n : Json)
    (hn : normalizeSamlConfig p = some n)
    (hvo : validateSamlOther n = true)
    (hnd : topNodup p) :
    (hasMetaUrl p = hasMetaUrl n ∧ hasMetaXml p = hasMetaXml n) ∧
    (validateSaml n = true ↔ hasMetaUrl p ≠ hasMetaXml p) ∧
    (hasMetaUrl p ≠ hasMetaXml p →
      handlerCore ext normalizeSamlConfig (postEvent "validate_saml_config" p) =
        some (ok [Json.obj [("type", Json.str "saml_config_validation"),
          ("valid", Json.bool true), ("normalized", n)]])) ∧
    (hasMetaUrl p = hasMetaXml p →
      handlerCore ext normalizeSamlConfig (postEvent "validate_saml_config" p) =
        some (fail 400 "INVALID_ARGUMENT" "SAML config schema validation failed"
          (ext.renderSamlErrs n))) := by
  obtain ⟨gs, hgs⟩ := validateSamlOther_obj hvo
  have hpobj : ∃ fs, p = Json.obj fs := by
    cases p with
    | obj fs => exact ⟨fs, rfl⟩
    | null => cases hn
    | undef => cases hn
    | bool b =>
      rw [show normalizeSamlConfig (Json.bool b) = some (Json.bool b) from rfl] at hn
      cases hn
      rw [hgs] at hvo
      cases hgs
    | num q =>
      rw [show normalizeSamlConfig (Json.num q) = some (Json.num q) from rfl] at hn
      cases hn
      cases hgs
    | str s =>
      rw [show normalizeSamlConfig (Json.str s) = some (Json.str s) from rfl] at hn
      cases hn
      cases hgs
    | arr xs =>
      rw [show normalizeSamlConfig (Json.arr xs) = some (Json.arr xs) from rfl] at hn
      cases hn
      cases hgs
  obtain ⟨fs, hfs⟩ := hpobj
  have hpu : hasMetaUrl p = hasMetaUrl n := by
    unfold hasMetaUrl
    rw [normalize_meta_presence "metadata_url" (Or.inl rfl) hn]
  have hpx : hasMetaXml p = hasMetaXml n := by
    unfold hasMetaXml
    rw [normalize_meta_presence "metadata_xml" (Or.inr rfl) hn]
  have hndn : topNodup n := by
    subst hfs
    obtain ⟨gs2, hg2, hg2f⟩ := normalize_top_fst hn
    rw [hg2]
    show (List.map Prod.fst gs2).Nodup
    rw [hg2f]
    exact hnd
  have hiff := validateSaml_iff_metaXor hvo hndn
  have hiff2 : validateSaml n = true ↔ hasMetaUrl p ≠ hasMetaXml p := by
    rw [hpu, hpx]
    exact hiff
  have htr : p.truthy = true := by rw [hfs]; rfl
  have hobj : p.typeOf = "object" := by rw [hfs]; rfl
  have hpost := handler_validate_post ext normalizeSamlConfig p htr hobj
  rw [hn] at hpost
  have hpost2 : handlerCore ext normalizeSamlConfig (postEvent "validate_saml_config" p) =
      (if validateSaml n then
        some (ok [Json.obj [("type", Json.str "saml_config_validation"),
          ("valid", Json.bool true), ("normalized", n)]])
      else
        some (fail 400 "INVALID_ARGUMENT" "SAML config schema validation failed"
          (ext.renderSamlErrs n))) := hpost
  refine ⟨⟨hpu, hpx⟩, hiff2, fun hx => ?_, fun hx => ?_⟩
  · rw [hpost2, if_pos (hiff2.mpr hx)]
  · have hvf : validateSaml n = false := by
      cases hvv : validateSaml n with
      | false => rfl
      | true => exact absurd (hiff2.mp hvv) (by simp [hx])
    rw [hpost2, if_neg (by simp [hvf])]

/-- C2 witness: the sample config with only `metadata_url` is accepted
end-to-end, and the same config with `metadata_xml` added is rejected
with the 400 schema-failure envelope. -/
theorem metadata_exactly_one_witness :
    handlerCore extDefault normalizeSamlConfig
      (postEvent "validate_saml_config" sampleCfg)
      = some (ok [Json.obj [("type", Json.str "saml_config_validation"),
          ("valid", Json.bool true),
          ("normalized", (normalizeSamlConfig sampleCfg).getD Json.null)]]) ∧
    handlerCore extDefault normalizeSamlConfig
      (postEvent "validate_saml_config" cfgBothMeta)
      = some (fail 400 "INVALID_ARGUMENT" "SAML config schema validation failed"
          (extDefault.renderSamlErrs
            ((normalizeSamlConfig cfgBothMeta).getD Json.null))) :=
  ⟨(metadata_exactly_one extDefault sampleCfg
      ((normalizeSamlConfig sampleCfg).getD Json.null) rfl (by decide)
      (by show List.Nodup _; decide)).2.2.1 (by decide),
   (metadata_exactly_one extDefault cfgBothMeta
      ((normalizeSamlConfig cfgBothMeta).getD Json.null) rfl (by decide)
      (by show List.Nodup _; decide)).2.2.2 (by decide)⟩

/-! ## Extracting structure from a valid config -/

theorem presentF_prop {fs : List (String × Json)} {k : String} {cs : List String}
    {P : String → Json → Bool}
    (hall : (fs.all fun kv => cs.contains kv.1 && (isUndef kv.2 || P kv.1 kv.2)) = true)
    (hp : presentF fs k = true) : P k (jgetF fs k) = true := by
  rw [List.all_eq_true] at hall
  cases hlk : lookupF fs k with
  | none =>
    exfalso
    unfold presentF jgetF at hp
    rw [hlk] at hp
    simp [isUndef] at hp
  | some v =>
    have hmem := lookupF_mem hlk
    have h1 := hall _ hmem
    simp only [Bool.and_eq_true, Bool.or_eq_true] at h1
    have hg : jgetF fs k = v := by unfold jgetF; rw [hlk]
    rw [hg]
    rcases h1.2 with h2 | h2
    · exfalso
      unfold presentF at hp
      rw [hg] at hp
      rw [h2] at hp
      cases hp
    · exact h2

theorem valid_obj {cfg : Json} (hv : validateSaml cfg = true) :
    ∃ fs, cfg = Json.obj fs := by
  cases cfg with
  | obj fs => exact ⟨fs, rfl⟩
  | undef => simp [validateSaml] at hv
  | null => simp [validateSaml] at hv
  | bool b => simp [validateSaml] at hv
  | num q => simp [validateSaml] at hv
  | str s => simp [validateSaml] at hv
  | arr xs => simp [validateSaml] at hv

theorem valid_vSaml {cfg : Json} (hv : validateSaml cfg = true) :
    vSaml (jget cfg "saml") = true := by
  obtain ⟨fs, hfs⟩ := valid_obj hv
  subst hfs
  unfold validateSaml at hv
  simp only [Bool.and_eq_true] at hv
  have := presentF_prop (P := topPropOk) hv.1.1.1.1.1 hv.1.1.1.2
  simpa [topPropOk, jget] using this

theorem valid_vDomains {cfg : Json} (hv : validateSaml cfg = true) :
    vDomains (jget cfg "domains") = true := by
  obtain ⟨fs, hfs⟩ := valid_obj hv
  subst hfs
  unfold validateSaml at hv
  simp only [Bool.and_eq_true] at hv
  have := presentF_prop (P := topPropOk) hv.1.1.1.1.1 hv.1.1.2
  simpa [topPropOk, jget] using this

theorem vSaml_entity {S : Json} (hs : vSaml S = true) :
    vStr1 (jget S "entity_id") = true := by
  cases S with
  | obj sf =>
    unfold vSaml at hs
    simp only [Bool.and_eq_true] at hs
    have := presentF_prop (P := samlPropOk) hs.1.1.1.1.1 hs.1.1.1.2
    simpa [samlPropOk, jget] using this
  | undef => simp [vSaml] at hs
  | null => simp [vSaml] at hs
  | bool b => simp [vSaml] at hs
  | num q => simp [vSaml] at hs
  | str s => simp [vSaml] at hs
  | arr xs => simp [vSaml] at hs

theorem vSaml_attrMapping {S : Json} (hs : vSaml S = true) :
    vAttrMapping (jget S "attribute_mapping") = true := by
  cases S with
  | obj sf =>
    unfold vSaml at hs
    simp only [Bool.and_eq_true] at hs
    have := presentF_prop (P := samlPropOk) hs.1.1.1.1.1 hs.1.1.2
    simpa [samlPropOk, jget] using this
  | undef => simp [vSaml] at hs
  | null => simp [vSaml] at hs
  | bool b => simp [vSaml] at hs
  | num q => simp [vSaml] at hs
  | str s => simp [vSaml] at hs
  | arr xs => simp [vSaml] at hs

theorem vAttrMapping_keys {A : Json} (ha : vAttrMapping A = true) :
    vKeys (jget A "keys") = true := by
  cases A with
  | obj af =>
    unfold vAttrMapping at ha
    simp only [Bool.and_eq_true] at ha
    have := @presentF_prop af "keys" ["keys"] (fun _ v => vKeys v) ?_ ha.2
    · simpa [jget] using this
    · rw [List.all_eq_true]
      intro kv hkv
      rw [List.all_eq_true] at ha
      have h1 := ha.1 kv hkv
      simp only [Bool.and_eq_true, decide_eq_true_eq, Bool.or_eq_true] at h1 ⊢
      refine ⟨by simp [h1.1], h1.2⟩
  | undef => simp [vAttrMapping] at ha
  | null => simp [vAttrMapping] at ha
  | bool b => simp [vAttrMapping] at ha
  | num q => simp [vAttrMapping] at ha
  | str s => simp [vAttrMapping] at ha
  | arr xs => simp [vAttrMapping] at ha

/-! ## Audit structure on valid configs -/

theorem vDomains_arr {D : Json} (hd : vDomains D = true) :
    ∃ ds, D = Json.arr ds ∧ ds ≠ [] ∧ ∀ d ∈ ds, vDomainItem d = true := by
  cases D with
  | arr ds =>
    unfold vDomains at hd
    simp only [Bool.and_eq_true, List.all_eq_true, decide_eq_true_eq] at hd
    refine ⟨ds, rfl, ?_, hd.2⟩
    intro hnil
    subst hnil
    simp at hd
  | undef => simp [vDomains] at hd
  | null => simp [vDomains] at hd
  | bool b => simp [vDomains] at hd
  | num q => simp [vDomains] at hd
  | str s => simp [vDomains] at hd
  | obj fs => simp [vDomains] at hd

theorem vDomainItem_domain {d : Json} (hd : vDomainItem d = true) :
    ∃ s, jget d "domain" = Json.str s ∧ s ≠ "" := by
  cases d with
  | obj es =>
    unfold vDomainItem at hd
    simp only [Bool.and_eq_true] at hd
    have := presentF_prop (P := domainPropOk) hd.1.1.1.1 hd.1.1.2
    have h2 : vStr1 (jgetF es "domain") = true := by simpa [domainPropOk] using this
    cases hs : jgetF es "domain" with
    | str s =>
      refine ⟨s, by simp [jget, hs], ?_⟩
      rw [hs] at h2
      unfold vStr1 at h2
      simp at h2
      intro hnil
      subst hnil
      simp at h2
    | undef => rw [hs] at h2; simp [vStr1] at h2
    | null => rw [hs] at h2; simp [vStr1] at h2
    | bool b => rw [hs] at h2; simp [vStr1] at h2
    | num q => rw [hs] at h2; simp [vStr1] at h2
    | arr xs => rw [hs] at h2; simp [vStr1] at h2
    | obj gs => rw [hs] at h2; simp [vStr1] at h2
  | undef => simp [vDomainItem] at hd
  | null => simp [vDomainItem] at hd
  | bool b => simp [vDomainItem] at hd
  | num q => simp [vDomainItem] at hd
  | str s => simp [vDomainItem] at hd
  | arr xs => simp [vDomainItem] at hd

theorem vStr1_str {v : Json} (hv : vStr1 v = true) : ∃ s, v = Json.str s ∧ s ≠ "" := by
  cases v with
  | str s =>
    refine ⟨s, rfl, ?_⟩
    unfold vStr1 at hv
    simp at hv
    intro hnil
    subst hnil
    simp at hv
  | undef => simp [vStr1] at hv
  | null => simp [vStr1] at hv
  | bool b => simp [vStr1] at hv
  | num q => simp [vStr1] at hv
  | arr xs => simp [vStr1] at hv
  | obj fs => simp [vStr1] at hv

theorem auditEntity_of_valid {cfg : Json} (hv : validateSaml cfg = true) :
    ∃ l, auditEntityFindings cfg = some l ∧ ∀ f ∈ l, f = entityFinding := by
  obtain ⟨s, hs, hne⟩ := vStr1_str (vSaml_entity (valid_vSaml hv))
  unfold auditEntityFindings
  rw [hs, if_pos (by simp [Json.truthy, hne])]
  refine ⟨_, rfl, ?_⟩
  intro f hf
  rcases hif : (!strIncludes s ":") with h | h
  · rw [hif] at hf
    simp at hf
  · rw [hif] at hf
    simp at hf
    exact hf

theorem auditDomains_of_valid {cfg : Json} {ds : List Json}
    (hv : validateSaml cfg = true) (hd : jget cfg "domains" = Json.arr ds) :
    auditDomainsFindings cfg = some (ds.flatMap auditDomainFindings) := by
  unfold auditDomainsFindings
  rw [hd]
  rw [if_pos (by simp [Json.truthy])]

theorem auditSaml_of_valid {cfg : Json} (hv : validateSaml cfg = true) :
    ∃ ds entL, jget cfg "domains" = Json.arr ds ∧
      (∀ f ∈ entL, f = entityFinding) ∧
      auditSamlConfig cfg = some (auditUrlFindings cfg ++ entL ++
        ds.flatMap auditDomainFindings ++ auditKeysFindings cfg) := by
  obtain ⟨ds, hds, _, _⟩ := vDomains_arr (valid_vDomains hv)
  obtain ⟨entL, hent, hentf⟩ := auditEntity_of_valid hv
  refine ⟨ds, entL, hds, hentf, ?_⟩
  unfold auditSamlConfig
  rw [hent, auditDomains_of_valid hv hds]

theorem auditDomainFindings_codes {d : Json} {f : Finding}
    (hf : f ∈ auditDomainFindings d) :
    f = spacesFinding ∨ f = urlShapeFinding ∨ f = tldFinding := by
  unfold auditDomainFindings at hf
  cases hdv : jget d "domain" with
  | str s =>
    rw [hdv] at hf
    simp only [List.mem_append] at hf
    rcases hf with (hf | hf) | hf
    · left
      rcases h : strIncludes s " " with _ | _ <;> rw [h] at hf <;> simpa using hf
    · right
      left
      rcases h : (strIncludes s "http://" || strIncludes s "https://") with _ | _ <;>
        rw [h] at hf <;> simpa using hf
    · right
      right
      by_cases h : (splitDot s.data).length < 2
      · rw [if_pos h] at hf
        simpa using hf
      · rw [if_neg h] at hf
        simp at hf
  | undef => rw [hdv] at hf; simp at hf
  | null => rw [hdv] at hf; simp at hf
  | bool b => rw [hdv] at hf; simp at hf
  | num q => rw [hdv] at hf; simp at hf
  | arr xs => rw [hdv] at hf; simp at hf
  | obj gs => rw [hdv] at hf; simp at hf

theorem auditKeysFindings_codes {cfg : Json} {f : Finding}
    (hf : f ∈ auditKeysFindings cfg) :
    f = emptyKeysFinding ∨ f = emailFinding := by
  unfold auditKeysFindings at hf
  split at hf
  · left
    simpa using hf
  · split at hf
    · right
      simpa using hf
    · simp at hf

theorem auditUrlFindings_codes {cfg : Json} {f : Finding}
    (hf : f ∈ auditUrlFindings cfg) :
    f = notHttpsFinding ∨ f = badUrlFinding := by
  unfold auditUrlFindings at hf
  split at hf
  · split at hf
    · split at hf
      · left
        simpa using hf
      · simp at hf
    · right
      simpa using hf
  · simp at hf

/-- C7: on a structurally valid config carrying a `metadata_url`, the
audit emits the high-severity `METADATA_URL_NOT_HTTPS` finding exactly
for URLs whose parsed scheme is not https, and emits no such finding
when the scheme is https. -/
theorem audit_metadata_url_not_https (cfg : Json) (u : String)
    (hv : validateSaml cfg = true)
    (hu : jget (jget cfg "saml") "metadata_url" = Json.str u) :
    ∃ fs, auditSamlConfig cfg = some fs ∧
      (∀ pr, urlProtocol u = some pr → pr ≠ "https:" → notHttpsFinding ∈ fs) ∧
      (urlProtocol u = some "https:" →
        ∀ f ∈ fs, f.code ≠ "METADATA_URL_NOT_HTTPS") ∧
      notHttpsFinding.severity = "high" ∧
      notHttpsFinding.code = "METADATA_URL_NOT_HTTPS" := by
  obtain ⟨ds, entL, hds, hentf, haud⟩ := auditSaml_of_valid hv
  refine ⟨_, haud, ?_, ?_, rfl, rfl⟩
  · intro pr hpr hne
    have hu1 : u ≠ "" := by
      intro hnil
      subst hnil
      rw [show urlProtocol "" = none from rfl] at hpr
      cases hpr
    have hurlf : auditUrlFindings cfg = [notHttpsFinding] := by
      unfold auditUrlFindings
      rw [hu, if_pos (by simp [Json.truthy, hu1])]
      rw [show jsToString (Json.str u) = u from rfl, hpr]
      show (if pr ≠ "https:" then [notHttpsFinding] else []) = [notHttpsFinding]
      rw [if_pos hne]
    rw [hurlf]
    simp
  · intro hpr f hf hcode
    have hu1 : u ≠ "" := by
      intro hnil
      subst hnil
      rw [show urlProtocol "" = none from rfl] at hpr
      cases hpr
    have hurlf : auditUrlFindings cfg = [] := by
      unfold auditUrlFindings
      rw [hu, if_pos (by simp [Json.truthy, hu1])]
      rw [show jsToString (Json.str u) = u from rfl, hpr]
      show (if ("https:" : String) ≠ "https:" then [notHttpsFinding] else []) = []
      rw [if_neg (by simp)]
    rw [hurlf] at hf
    simp only [List.nil_append, List.mem_append] at hf
    rcases hf with (hf | hf) | hf
    · rw [hentf f hf] at hcode
      simp [entityFinding] at hcode
    · obtain ⟨d, _, hfd⟩ := List.mem_flatMap.mp hf
      rcases auditDomainFindings_codes hfd with h1 | h1 | h1 <;> rw [h1] at hcode <;>
        simp [spacesFinding, urlShapeFinding, tldFinding] at hcode
    · rcases auditKeysFindings_codes hf with h1 | h1 <;> rw [h1] at hcode <;>
        simp [emptyKeysFinding, emailFinding] at hcode

/-- C7 witness: the http config gets the high `METADATA_URL_NOT_HTTPS`
finding; the https sample config gets no finding with that code. -/
theorem audit_metadata_url_not_https_witness :
    notHttpsFinding ∈ (auditSamlConfig cfgHttp).getD [] ∧
    ((auditSamlConfig sampleCfg).getD []).all
      (fun f => f.code != "METADATA_URL_NOT_HTTPS") = true := by
  constructor
  · obtain ⟨fs, hfs, h1, _, _, _⟩ := audit_metadata_url_not_https cfgHttp
      "http://example.com/metadata.xml" (by decide) rfl
    rw [hfs]
    exact h1 "http:" (by decide) (by decide)
  · obtain ⟨fs, hfs, _, h2, _, _⟩ := audit_metadata_url_not_https sampleCfg
      "https://idp.example.com/metadata.xml" (by decide) rfl
    rw [hfs]
    rw [List.all_eq_true]
    intro f hfm
    have := h2 (by decide) f hfm
    simpa using this

/-! ## C8: the per-domain audit rules -/

theorem splitDot_ne_nil (l : List Char) : splitDot l ≠ [] := by
  cases l with
  | nil => simp [splitDot]
  | cons c rest =>
    rw [splitDot]
    cases splitDot rest with
    | nil => simp
    | cons hh t =>
      show (if c = '.' then ([] : List Char) :: hh :: t else (c :: hh) :: t) ≠ []
      split <;> simp

theorem splitDot_length (l : List Char) :
    (splitDot l).length = l.count '.' + 1 := by
  induction l with
  | nil => rfl
  | cons c rest ih =>
    rw [splitDot]
    cases h : splitDot rest with
    | nil => exact absurd h (splitDot_ne_nil rest)
    | cons hh t =>
      rw [h] at ih
      show (if c = '.' then ([] : List Char) :: hh :: t
        else (c :: hh) :: t).length = List.count '.' (c :: rest) + 1
      by_cases hc : c = '.'
      · rw [if_pos hc]
        simp only [List.length_cons] at ih ⊢
        simp [List.count_cons, hc]
        omega
      · rw [if_neg hc]
        have hc' : ¬('.' = c) := fun h2 => hc h2.symm
        simp only [List.length_cons] at ih ⊢
        simp [List.count_cons, hc']
        omega

theorem splitDot_lt_two_iff (l : List Char) :
    ((splitDot l).length < 2) ↔ '.' ∉ l := by
  rw [splitDot_length]
  constructor
  · intro h hmem
    have := List.count_pos_iff_mem.mpr hmem
    omega
  · intro h
    have : l.count '.' = 0 := List.count_eq_zero.mpr h
    omega

/-- Modelled from the spec: the three per-domain rules, severities and
codes as §4.4 lists them, with "no separator segment" read as "no `.`
character".  (The space rule is stated for the space character U+0020,
which is what `includes(" ")` tests.) -/
def domainRuleSpec (s : String) : List Finding :=
  (if strIncludes s " " then
    [⟨"high", "DOMAIN_HAS_SPACES", "Domain contains spaces; invalid.",
      "payload.domains[].domain"⟩] else []) ++
  (if strIncludes s "http://" || strIncludes s "https://" then
    [⟨"high", "DOMAIN_LOOKS_LIKE_URL", "Domain should be a hostname, not a URL.",
      "payload.domains[].domain"⟩] else []) ++
  (if '.' ∉ s.data then
    [⟨"medium", "DOMAIN_MISSING_TLD", "Domain missing a dot/TLD; verify.",
      "payload.domains[].domain"⟩] else [])

theorem auditDomainFindings_str {d : Json} {s : String}
    (hs : jget d "domain" = Json.str s) :
    auditDomainFindings d =
      (if strIncludes s " " then [spacesFinding] else []) ++
      (if strIncludes s "http://" || strIncludes s "https://" then
        [urlShapeFinding] else []) ++
      (if (splitDot s.data).length < 2 then [tldFinding] else []) := by
  unfold auditDomainFindings
  rw [hs]

/-- C8 (amended): on a structurally valid config whose `domains` is the
array `ds`, the audit succeeds, the findings carrying a domain-rule code
are exactly the per-binding findings in binding order, and each binding
whose `domain` is the string `s` contributes the three rules of
`domainRuleSpec`: a high `DOMAIN_HAS_SPACES` when `s` contains a space
character (U+0020 only — not general whitespace, which is the amendment),
a high `DOMAIN_LOOKS_LIKE_URL` when `s` contains `http://` or `https://`,
and a medium `DOMAIN_MISSING_TLD` when `s` has no `.`. -/
theorem audit_domain_rules {cfg : Json} {ds : List Json}
    (hv : validateSaml cfg = true) (hds : jget cfg "domains" = Json.arr ds) :
    ∃ L, auditSamlConfig cfg = some L ∧
      L.filter (fun f => domainRuleCodes.contains f.code) =
        ds.flatMap auditDomainFindings ∧
      ∀ d ∈ ds, ∀ s : String, jget d "domain" = Json.str s →
        auditDomainFindings d = domainRuleSpec s := by
  obtain ⟨ds0, entL, hds0, hentf, haud⟩ := auditSaml_of_valid hv
  rw [hds] at hds0
  injection hds0 with h0
  subst h0
  refine ⟨_, haud, ?_, ?_⟩
  · have hfu : (auditUrlFindings cfg).filter
        (fun f => domainRuleCodes.contains f.code) = [] :=
      List.filter_eq_nil.mpr (fun f hf => by
        rcases auditUrlFindings_codes hf with h | h <;> subst h <;> decide)
    have hfe : entL.filter (fun f => domainRuleCodes.contains f.code) = [] :=
      List.filter_eq_nil.mpr (fun f hf => by rw [hentf f hf]; decide)
    have hfk : (auditKeysFindings cfg).filter
        (fun f => domainRuleCodes.contains f.code) = [] :=
      List.filter_eq_nil.mpr (fun f hf => by
        rcases auditKeysFindings_codes hf with h | h <;> subst h <;> decide)
    have hfd : (ds.flatMap auditDomainFindings).filter
        (fun f => domainRuleCodes.contains f.code) =
        ds.flatMap auditDomainFindings :=
      List.filter_eq_self.mpr (fun f hf => by
        obtain ⟨d, _, hfd2⟩ := List.mem_flatMap.mp hf
        rcases auditDomainFindings_codes hfd2 with h | h | h <;> subst h <;> decide)
    simp only [List.filter_append, hfu, hfe, hfk, hfd]
    simp
  · intro d _ s hs
    rw [auditDomainFindings_str hs]
    unfold domainRuleSpec
    by_cases hdot : ('.' : Char) ∈ s.data
    · rw [if_neg (fun h => (splitDot_lt_two_iff s.data).mp h hdot),
          if_neg (not_not_intro hdot)]
      rfl
    · rw [if_pos ((splitDot_lt_two_iff s.data).mpr hdot), if_pos hdot]
      rfl

/-- C8 counterexample: `cfgTabDomain` is structurally valid and its sole
domain string contains a tab — a JavaScript whitespace character — yet
the audit returns no findings at all, in particular no
`DOMAIN_HAS_SPACES`: the code tests `includes(" ")`, the space character
only, not whitespace in general. -/
theorem audit_domain_rules_counterexample :
    validateSaml cfgTabDomain = true ∧
    (∃ d, jget cfgTabDomain "domains" = Json.arr [d] ∧
      ∃ s, jget d "domain" = Json.str s ∧ s.data.any isJsWhite = true) ∧
    auditSamlConfig cfgTabDomain = some [] := by
  refine ⟨by decide, ⟨_, rfl, ⟨_, rfl, by decide⟩⟩, by rfl⟩

/-- C8 witness: on `sampleCfg` (whose single domain `" Example.COM "`
contains a space) the theorem applies, and the domain-rule findings are
exactly the high `DOMAIN_HAS_SPACES` finding. -/
theorem audit_domain_rules_witness :
    validateSaml sampleCfg = true ∧
    jget sampleCfg "domains" = Json.arr [sampleDomain] ∧
    (∃ L, auditSamlConfig sampleCfg = some L ∧
      L.filter (fun f => domainRuleCodes.contains f.code) =
        [sampleDomain].flatMap auditDomainFindings ∧
      ∀ d ∈ [sampleDomain], ∀ s : String, jget d "domain" = Json.str s →
        auditDomainFindings d = domainRuleSpec s) :=
  ⟨by decide, rfl, audit_domain_rules (by decide) rfl⟩

/-! ## C10: whitespace-only `names` lists are rejected after normalization -/

theorem normMeta_saml_field (p : Json) {f : String}
    (h1 : f ≠ "metadata_url") (h2 : f ≠ "metadata_xml") :
    jget (jget (normMeta p) "saml") f = jget (jget p "saml") f := by
  unfold normMeta
  rw [updSamlStr_other_field _ h2, updSamlStr_other_field _ h1]

theorem normKeys_keys {p : Json}
    (hko : isObjLike (jget (jget (jget p "saml") "attribute_mapping") "keys") = true) :
    jget (jget (jget (normKeys p) "saml") "attribute_mapping") "keys"
      = normKeysVal (jget (jget (jget p "saml") "attribute_mapping") "keys") := by
  obtain ⟨pf, sf, af, hp, hs, ha⟩ := chain_obj hko
  subst hp
  have hjs : jget (Json.obj pf) "saml" = Json.obj sf := by simp [jget, hs]
  have hja : jget (Json.obj sf) "attribute_mapping" = Json.obj af := by simp [jget, ha]
  simp only [normKeys, setKeysPath]
  rw [if_pos hko]
  rw [hjs, hja]
  rw [jget_setProp_same, jget_setProp_same, jget_setProp_same]

theorem normRuleEntry_names_empty {fs : List (String × Json)} {l : List Json}
    (hn : jgetF fs "names" = Json.arr l)
    (hws : ∀ x ∈ l, ∃ s, x = Json.str s ∧ trimJS s = "") :
    jget (normRuleEntry (Json.obj fs)) "names" = Json.arr [] := by
  have hl0 : (l.map trimIfStr).filter Json.truthy = [] :=
    List.filter_eq_nil.mpr (fun x hx => by
      obtain ⟨y, hy, he⟩ := List.mem_map.mp hx
      obtain ⟨s, hys, hts⟩ := hws y hy
      rw [← he, hys]
      simp [trimIfStr, hts, Json.truthy])
  unfold normRuleEntry
  simp only [Json.truthy, eq_self_iff_true, if_true]
  simp only [jget, hn, hl0, setProp]
  cases hm : jgetF (setField fs "names" (Json.arr [])) "name" with
  | str s =>
    simp only [jget, hm, setProp]
    rw [show jgetF (setField (setField fs "names" (Json.arr [])) "name"
          (Json.str (trimJS s))) "names"
        = jgetF (setField fs "names" (Json.arr [])) "names" from
      jgetF_setField_ne _ _ (by decide)]
    exact jgetF_setField_same _ _ _
  | undef => simp [jget, hm, jgetF_setField_same]
  | null => simp [jget, hm, jgetF_setField_same]
  | bool b => simp [jget, hm, jgetF_setField_same]
  | num q => simp [jget, hm, jgetF_setField_same]
  | arr ys => simp [jget, hm, jgetF_setField_same]
  | obj hs2 => simp [jget, hm, jgetF_setField_same]

theorem normalize_keys_chain {p n : Json} {ks : List (String × Json)}
    (hkv : jget (jget (jget p "saml") "attribute_mapping") "keys" = Json.obj ks)
    (hn : normalizeSamlConfig p = some n) :
    jget (jget (jget n "saml") "attribute_mapping") "keys"
      = Json.obj (ks.map fun kv => (kv.1, normRuleEntry kv.2)) := by
  cases p with
  | obj pf =>
    unfold normalizeSamlConfig at hn
    cases hD : normDomains (Json.obj pf) with
    | none => rw [hD] at hn; cases hn
    | some p1 =>
      rw [hD] at hn
      simp only [Option.map_some', Option.some.injEq] at hn
      subst hn
      have hs1 : jget p1 "saml" = jget (Json.obj pf) "saml" := by
        rcases normDomains_obj_some hD with ⟨he, _⟩ | ⟨ds, ds', _, _, he⟩
        · rw [he]
        · rw [he]
          simp [jget, jgetF_setField_ne _ _ (show ("saml" : String) ≠ "domains" from by decide)]
      have hkv1 : jget (jget (jget p1 "saml") "attribute_mapping") "keys"
          = Json.obj ks := by
        rw [hs1]
        exact hkv
      have hkv2 : jget (jget (jget (normMeta p1) "saml") "attribute_mapping") "keys"
          = Json.obj ks := by
        rw [normMeta_saml_field p1 (by decide) (by decide)]
        exact hkv1
      have hko : isObjLike (jget (jget (jget (normMeta p1) "saml")
          "attribute_mapping") "keys") = true := by
        rw [hkv2]
        rfl
      rw [normKeys_keys hko, hkv2]
      rfl
  | undef => simp [jget] at hkv
  | null => simp [jget] at hkv
  | bool b => simp [jget] at hkv
  | num q => simp [jget] at hkv
  | str s => simp [jget] at hkv
  | arr xs => simp [jget] at hkv

/-- C10: a payload whose attribute-mapping rule has a non-empty `names`
list made only of whitespace-only strings is rejected: normalization
empties the list (trim then `.filter(Boolean)` drops every entry), the
normalized config fails validation (`names` requires at least one item),
and the handler answers with the 400 `INVALID_ARGUMENT` failure
envelope — even though the raw payload has the non-empty-list shape. -/
theorem whitespace_names_rejected (ext : Externals) (p n : Json)
    (ks : List (String × Json)) (kk : String) (rfs : List (String × Json))
    (l : List Json)
    (htr : p.truthy = true) (hobj : p.typeOf = "object")
    (hkv : jget (jget (jget p "saml") "attribute_mapping") "keys" = Json.obj ks)
    (hmem : (kk, Json.obj rfs) ∈ ks)
    (hnames : jgetF rfs "names" = Json.arr l) (hne : l ≠ [])
    (hws : ∀ x ∈ l, ∃ s, x = Json.str s ∧ trimJS s = "")
    (hn : normalizeSamlConfig p = some n) :
    jget (normRuleEntry (Json.obj rfs)) "names" = Json.arr [] ∧
    validateSaml n = false ∧
    handlerCore ext normalizeSamlConfig (postEvent "validate_saml_config" p)
      = some (fail 400 "INVALID_ARGUMENT" "SAML config schema validation failed"
          (ext.renderSamlErrs n)) := by
  have hchain := normalize_keys_chain hkv hn
  have hEmpty := normRuleEntry_names_empty hnames hws
  have hvfalse : validateSaml n = false := by
    cases hvb : validateSaml n with
    | false => rfl
    | true =>
      exfalso
      have h1 := vAttrMapping_keys (vSaml_attrMapping (valid_vSaml hvb))
      rw [hchain] at h1
      have h2 : ((ks.map fun kv => (kv.1, normRuleEntry kv.2)).all
          fun kv => isUndef kv.2 || vRule kv.2) = true := by
        unfold vKeys at h1
        simp only [Bool.and_eq_true] at h1
        exact h1.2
      rw [List.all_eq_true] at h2
      have hmem2 : (kk, normRuleEntry (Json.obj rfs)) ∈
          ks.map (fun kv => (kv.1, normRuleEntry kv.2)) :=
        List.mem_map.mpr ⟨(kk, Json.obj rfs), hmem, rfl⟩
      have h3 := h2 _ hmem2
      obtain ⟨gs, hgs, _, _⟩ := normRuleEntry_obj_cases rfs
      rw [hgs] at h3 hEmpty
      have h4 : vRule (Json.obj gs) = true := by
        simpa [isUndef] using h3
      unfold vRule at h4
      simp only [Bool.and_eq_true] at h4
      have h5 := presentF_prop (P := rulePropOk) h4.1.1.1 h4.1.2
      have h6 : jgetF gs "names" = Json.arr [] := by
        have h7 : jget (Json.obj gs) "names" = Json.arr [] := hEmpty
        simpa [jget] using h7
      rw [h6] at h5
      exact absurd h5 (by decide)
  refine ⟨hEmpty, hvfalse, ?_⟩
  rw [handler_validate_post ext normalizeSamlConfig p htr hobj]
  simp only [hn]
  simp [hvfalse]

/-- C10 witness: the concrete payload `cfgWsNames`, whose rule `k1` has
`names` `["   ", "\t"]`, normalizes to a config with an empty `names`
list, fails validation, and draws the 400 failure envelope. -/
theorem whitespace_names_rejected_witness :
    (∃ m, normalizeSamlConfig cfgWsNames = some m) ∧
    validateSaml ((normalizeSamlConfig cfgWsNames).getD Json.undef) = false ∧
    handlerCore extDefault normalizeSamlConfig
      (postEvent "validate_saml_config" cfgWsNames)
      = some (fail 400 "INVALID_ARGUMENT" "SAML config schema validation failed"
          (extDefault.renderSamlErrs
            ((normalizeSamlConfig cfgWsNames).getD Json.undef))) := by
  have hn : normalizeSamlConfig cfgWsNames
      = some ((normalizeSamlConfig cfgWsNames).getD Json.undef) := by rfl
  obtain ⟨_, hV, hH⟩ := whitespace_names_rejected extDefault cfgWsNames
    ((normalizeSamlConfig cfgWsNames).getD Json.undef)
    [("k1", Json.obj [("name", Json.str "email"),
       ("names", Json.arr [Json.str "   ", Json.str (String.mk [Char.ofNat 9])]),
       ("array", Json.bool false)])]
    "k1"
    [("name", Json.str "email"),
     ("names", Json.arr [Json.str "   ", Json.str (String.mk [Char.ofNat 9])]),
     ("array", Json.bool false)]
    [Json.str "   ", Json.str (String.mk [Char.ofNat 9])]
    (by decide) (by decide) rfl (List.Mem.head _) rfl (by simp)
    (by
      intro x hx
      simp only [List.mem_cons, List.not_mem_nil, or_false] at hx
      rcases hx with rfl | rfl
      · exact ⟨"   ", rfl, by decide⟩
      · exact ⟨String.mk [Char.ofNat 9], rfl, by decide⟩)
    hn
  exact ⟨⟨_, hn⟩, hV, hH⟩

/-! ## C6: closed-schema enforcement -/

theorem normRuleEntry_snd_fst (ms : List (String × Json)) :
    ∃ gs, (match jgetF ms "name" with
      | Json.str s => setProp (Json.obj ms) "name" (Json.str (trimJS s))
      | _ => Json.obj ms) = Json.obj gs ∧ gs.map Prod.fst = ms.map Prod.fst := by
  cases hm : jgetF ms "name" with
  | str s =>
    refine ⟨setField ms "name" (Json.str (trimJS s)), by simp [setProp], ?_⟩
    exact map_fst_setField _ (by rw [lookupF_eq_of_jgetF hm (by simp)]; rfl)
  | undef => exact ⟨ms, rfl, rfl⟩
  | null => exact ⟨ms, rfl, rfl⟩
  | bool b => exact ⟨ms, rfl, rfl⟩
  | num q => exact ⟨ms, rfl, rfl⟩
  | arr ys => exact ⟨ms, rfl, rfl⟩
  | obj hs2 => exact ⟨ms, rfl, rfl⟩

theorem normRuleEntry_obj_fst (fs : List (String × Json)) :
    ∃ gs, normRuleEntry (Json.obj fs) = Json.obj gs ∧
      gs.map Prod.fst = fs.map Prod.fst := by
  unfold normRuleEntry
  simp only [Json.truthy, eq_self_iff_true, if_true]
  cases hn : jgetF fs "names" with
  | arr l =>
    simp only [jget, hn, setProp]
    have hfst1 : (setField fs "names"
        (Json.arr ((l.map trimIfStr).filter Json.truthy))).map Prod.fst
        = fs.map Prod.fst :=
      map_fst_setField _ (by rw [lookupF_eq_of_jgetF hn (by simp)]; rfl)
    obtain ⟨gs, hgs, hfst2⟩ := normRuleEntry_snd_fst
      (setField fs "names" (Json.arr ((l.map trimIfStr).filter Json.truthy)))
    refine ⟨gs, ?_, by rw [hfst2]; exact hfst1⟩
    exact hgs
  | undef =>
    simp only [jget, hn]
    exact normRuleEntry_snd_fst fs
  | null =>
    simp only [jget, hn]
    exact normRuleEntry_snd_fst fs
  | bool b =>
    simp only [jget, hn]
    exact normRuleEntry_snd_fst fs
  | num q =>
    simp only [jget, hn]
    exact normRuleEntry_snd_fst fs
  | str s =>
    simp only [jget, hn]
    exact normRuleEntry_snd_fst fs
  | obj hs2 =>
    simp only [jget, hn]
    exact normRuleEntry_snd_fst fs

theorem updSamlStr_saml_fst (q : Json) (f : String) {gs : List (String × Json)}
    (hs : jget q "saml" = Json.obj gs) :
    ∃ gs2, jget (updSamlStr q f) "saml" = Json.obj gs2 ∧
      gs2.map Prod.fst = gs.map Prod.fst := by
  rcases updSamlStr_cases q f with ⟨hid, _⟩ | ⟨pf, sf, v, hp, hsml, hf, hres⟩
  · rw [hid]
    exact ⟨gs, hs, rfl⟩
  · subst hp
    have h2 : Json.obj sf = Json.obj gs := by
      rw [← hs]
      simp [jget, hsml]
    injection h2 with he
    subst he
    rw [hres]
    refine ⟨setField sf f (Json.str (trimJS v)),
      by simp [jget, jgetF_setField_same], ?_⟩
    exact map_fst_setField _ (by rw [lookupF_eq_of_jgetF hf (by simp)]; rfl)

theorem normKeys_saml_fst (q : Json) {gs : List (String × Json)}
    (hs : jget q "saml" = Json.obj gs) :
    ∃ gs2, jget (normKeys q) "saml" = Json.obj gs2 ∧
      gs2.map Prod.fst = gs.map Prod.fst := by
  rcases normKeys_cases q with hid | ⟨pf, sf, af, kv, hp, hsml, ha, hkv, hobj, hres⟩
  · rw [hid]
    exact ⟨gs, hs, rfl⟩
  · subst hp
    have h2 : Json.obj sf = Json.obj gs := by
      rw [← hs]
      simp [jget, hsml]
    injection h2 with he
    subst he
    rw [hres]
    refine ⟨setField sf "attribute_mapping"
        (Json.obj (setField af "keys" (normKeysVal kv))),
      by simp [jget, jgetF_setField_same], ?_⟩
    exact map_fst_setField _
      (by rw [lookupF_eq_of_jgetF ha (by simp)]; rfl)

theorem normalize_saml_fst {p n : Json} {gs : List (String × Json)}
    (hsml : jget p "saml" = Json.obj gs)
    (hn : normalizeSamlConfig p = some n) :
    ∃ gs2, jget n "saml" = Json.obj gs2 ∧ gs2.map Prod.fst = gs.map Prod.fst := by
  cases p with
  | obj pf =>
    unfold normalizeSamlConfig at hn
    cases hD : normDomains (Json.obj pf) with
    | none => rw [hD] at hn; cases hn
    | some p1 =>
      rw [hD] at hn
      simp only [Option.map_some', Option.some.injEq] at hn
      subst hn
      have hs1 : jget p1 "saml" = Json.obj gs := by
        rcases normDomains_obj_some hD with ⟨he, _⟩ | ⟨ds, ds', _, _, he⟩
        · rw [he]
          exact hsml
        · rw [he]
          rw [show jget (Json.obj (setField pf "domains" (Json.arr ds'))) "saml"
              = jgetF pf "saml" from by
            simp [jget, jgetF_setField_ne _ _
              (show ("saml" : String) ≠ "domains" from by decide)]]
          simpa [jget] using hsml
      obtain ⟨g1, hg1, hf1⟩ := updSamlStr_saml_fst p1 "metadata_url" hs1
      obtain ⟨g2, hg2, hf2⟩ := updSamlStr_saml_fst
        (updSamlStr p1 "metadata_url") "metadata_xml" hg1
      have hg2m : jget (normMeta p1) "saml" = Json.obj g2 := by
        unfold normMeta
        exact hg2
      obtain ⟨g3, hg3, hf3⟩ := normKeys_saml_fst (normMeta p1) hg2m
      exact ⟨g3, hg3, by rw [hf3, hf2, hf1]⟩
  | undef => simp [jget] at hsml
  | null => simp [jget] at hsml
  | bool b => simp [jget] at hsml
  | num q => simp [jget] at hsml
  | str s => simp [jget] at hsml
  | arr xs => simp [jget] at hsml

theorem normalize_domains_mapM {p n : Json} {ds : List Json}
    (hd : jget p "domains" = Json.arr ds)
    (hn : normalizeSamlConfig p = some n) :
    ∃ ds', ds.mapM normDomainItem = some ds' ∧ jget n "domains" = Json.arr ds' := by
  cases p with
  | obj pf =>
    unfold normalizeSamlConfig at hn
    cases hD : normDomains (Json.obj pf) with
    | none => rw [hD] at hn; cases hn
    | some p1 =>
      rw [hD] at hn
      simp only [Option.map_some', Option.some.injEq] at hn
      subst hn
      have hdf : jgetF pf "domains" = Json.arr ds := by simpa [jget] using hd
      rcases normDomains_obj_some hD with ⟨he, hnone⟩ | ⟨ds0, ds', hds0, hmap, he⟩
      · exact absurd hdf (hnone ds)
      · rw [hds0] at hdf
        injection hdf with hde
        subst hde
        refine ⟨ds', hmap, ?_⟩
        rw [jget_normKeys_ne _ (show ("domains" : String) ≠ "saml" from by decide),
            jget_normMeta_ne _ (show ("domains" : String) ≠ "saml" from by decide),
            he]
        simp [jget, jgetF_setField_same]
  | undef => simp [jget] at hd
  | null => simp [jget] at hd
  | bool b => simp [jget] at hd
  | num q => simp [jget] at hd
  | str s => simp [jget] at hd
  | arr xs => simp [jget] at hd

/-- C6 (amended): a payload carrying a property outside the declared set
— at the config root, in the `saml` block, in an attribute-mapping rule,
or in a domain binding — fails validation once normalization succeeds,
and the handler returns the 400 failure envelope.  (The amendment is the
`normalizeSamlConfig p = some n` hypothesis: normalization runs first
and can throw on such payloads, in which case no envelope is returned at
all — see the counterexample.) -/
theorem closed_schema_rejects_unknown_keys (ext : Externals) (p n : Json)
    (hu : UnknownKeyAt p)
    (hn : normalizeSamlConfig p = some n) :
    validateSaml n = false ∧
    handlerCore ext normalizeSamlConfig (postEvent "validate_saml_config" p)
      = some (fail 400 "INVALID_ARGUMENT" "SAML config schema validation failed"
          (ext.renderSamlErrs n)) := by
  have hpobj : ∃ pf, p = Json.obj pf := by
    rcases hu with ⟨fs, k, v, hp, _, _⟩ | ⟨gs, k, v, hs, _, _⟩ |
      ⟨ks, kk, rfs, k, v, hkv, _, _, _⟩ | ⟨ds, es, k, v, hd, _, _, _⟩
    · exact ⟨fs, hp⟩
    · cases p with
      | obj pf => exact ⟨pf, rfl⟩
      | undef => simp [jget] at hs
      | null => simp [jget] at hs
      | bool b => simp [jget] at hs
      | num q => simp [jget] at hs
      | str s => simp [jget] at hs
      | arr xs => simp [jget] at hs
    · cases p with
      | obj pf => exact ⟨pf, rfl⟩
      | undef => simp [jget] at hkv
      | null => simp [jget] at hkv
      | bool b => simp [jget] at hkv
      | num q => simp [jget] at hkv
      | str s => simp [jget] at hkv
      | arr xs => simp [jget] at hkv
    · cases p with
      | obj pf => exact ⟨pf, rfl⟩
      | undef => simp [jget] at hd
      | null => simp [jget] at hd
      | bool b => simp [jget] at hd
      | num q => simp [jget] at hd
      | str s => simp [jget] at hd
      | arr xs => simp [jget] at hd
  have hvfalse : validateSaml n = false := by
    cases hvb : validateSaml n with
    | false => rfl
    | true =>
      exfalso
      rcases hu with ⟨fs, k, v, hp, hmem, hcont⟩ | ⟨gs, k, v, hs, hmem, hcont⟩ |
        ⟨ks, kk, rfs, k, v, hkv, hmemks, hmemr, hcont⟩ |
        ⟨ds, es, k, v, hd, hmemds, hmemes, hcont⟩
      · subst hp
        obtain ⟨gs, hng, hfst⟩ := normalize_top_fst hn
        subst hng
        unfold validateSaml at hvb
        simp only [Bool.and_eq_true] at hvb
        have hall := hvb.1.1.1.1.1
        rw [List.all_eq_true] at hall
        have hk : k ∈ gs.map Prod.fst := by
          rw [hfst]
          exact List.mem_map.mpr ⟨(k, v), hmem, rfl⟩
        obtain ⟨kv2, hmem2, hk2⟩ := List.mem_map.mp hk
        have h3 := hall _ hmem2
        simp only [Bool.and_eq_true] at h3
        rw [hk2] at h3
        rw [hcont] at h3
        exact Bool.false_ne_true h3.1
      · obtain ⟨gs2, hg2, hfst⟩ := normalize_saml_fst hs hn
        have hvs := valid_vSaml hvb
        rw [hg2] at hvs
        unfold vSaml at hvs
        simp only [Bool.and_eq_true] at hvs
        have hall := hvs.1.1.1.1.1
        rw [List.all_eq_true] at hall
        have hk : k ∈ gs2.map Prod.fst := by
          rw [hfst]
          exact List.mem_map.mpr ⟨(k, v), hmem, rfl⟩
        obtain ⟨kv2, hmem2, hk2⟩ := List.mem_map.mp hk
        have h3 := hall _ hmem2
        simp only [Bool.and_eq_true] at h3
        rw [hk2] at h3
        rw [hcont] at h3
        exact Bool.false_ne_true h3.1
      · have hchain := normalize_keys_chain hkv hn
        have h1 := vAttrMapping_keys (vSaml_attrMapping (valid_vSaml hvb))
        rw [hchain] at h1
        have h2 : ((ks.map fun kv => (kv.1, normRuleEntry kv.2)).all
            fun kv => isUndef kv.2 || vRule kv.2) = true := by
          unfold vKeys at h1
          simp only [Bool.and_eq_true] at h1
          exact h1.2
        rw [List.all_eq_true] at h2
        have hmem2 : (kk, normRuleEntry (Json.obj rfs)) ∈
            ks.map (fun kv => (kv.1, normRuleEntry kv.2)) :=
          List.mem_map.mpr ⟨(kk, Json.obj rfs), hmemks, rfl⟩
        have h3 := h2 _ hmem2
        obtain ⟨gs, hgs, hfst⟩ := normRuleEntry_obj_fst rfs
        rw [hgs] at h3
        have h4 : vRule (Json.obj gs) = true := by
          simpa [isUndef] using h3
        unfold vRule at h4
        simp only [Bool.and_eq_true] at h4
        have hall := h4.1.1.1
        rw [List.all_eq_true] at hall
        have hk : k ∈ gs.map Prod.fst := by
          rw [hfst]
          exact List.mem_map.mpr ⟨(k, v), hmemr, rfl⟩
        obtain ⟨kv2, hmem2b, hk2⟩ := List.mem_map.mp hk
        have h5 := hall _ hmem2b
        simp only [Bool.and_eq_true] at h5
        rw [hk2] at h5
        rw [hcont] at h5
        exact Bool.false_ne_true h5.1
      · obtain ⟨ds', hmap, hnd⟩ := normalize_domains_mapM hd hn
        have hvd := valid_vDomains hvb
        rw [hnd] at hvd
        obtain ⟨ds2, harr, _, hall⟩ := vDomains_arr hvd
        injection harr with hde
        subst hde
        obtain ⟨d', hdi, hmem'⟩ := mapM_mem hmap hmemds
        have hw : ∃ w, normDomainItem (Json.obj es)
            = some (Json.obj (setField es "domain" w)) := ⟨_, rfl⟩
        obtain ⟨w, hweq⟩ := hw
        rw [hweq] at hdi
        injection hdi with hde2
        subst hde2
        have h3 := hall _ hmem'
        unfold vDomainItem at h3
        simp only [Bool.and_eq_true] at h3
        have hallf := h3.1.1.1.1
        rw [List.all_eq_true] at hallf
        have hkne : k ≠ "domain" := by
          intro he
          subst he
          exact Bool.false_ne_true (hcont.symm.trans (by decide))
        have h5 := hallf _ (mem_setField_of_ne "domain" w hmemes hkne)
        simp only [Bool.and_eq_true] at h5
        rw [hcont] at h5
        exact Bool.false_ne_true h5.1
  obtain ⟨pf, hp⟩ := hpobj
  subst hp
  refine ⟨hvfalse, ?_⟩
  rw [handler_validate_post ext normalizeSamlConfig (Json.obj pf)
    (by simp [Json.truthy]) rfl]
  simp only [hn]
  simp [hvfalse]

/-- C6 counterexample: `cfgUnknownCrash` carries the unknown top-level
property `extra`, yet no failure envelope is returned: its `domains`
array contains `null`, the normalizer throws reading `null.domain`
before validation can run, and the POST handler — which has no
try/catch — produces no response at all. -/
theorem closed_schema_rejects_unknown_keys_counterexample :
    (∃ fs, cfgUnknownCrash = Json.obj fs ∧ ("extra", Json.num 1) ∈ fs ∧
      topKeys.contains "extra" = false) ∧
    normalizeSamlConfig cfgUnknownCrash = none ∧
    handlerCore extDefault normalizeSamlConfig
      (postEvent "validate_saml_config" cfgUnknownCrash) = none := by
  refine ⟨⟨_, rfl, List.Mem.head _, by decide⟩, by rfl, ?_⟩
  rw [handler_validate_post extDefault normalizeSamlConfig cfgUnknownCrash
    (by decide) (by decide)]
  rw [show normalizeSamlConfig cfgUnknownCrash = none from rfl]

/-- C6 witness: `cfgExtraTop` has the unknown top-level key `extra`,
normalizes successfully, fails validation, and draws the 400 failure
envelope. -/
theorem closed_schema_rejects_unknown_keys_witness :
    UnknownKeyAt cfgExtraTop ∧
    (∃ m, normalizeSamlConfig cfgExtraTop = some m) ∧
    validateSaml ((normalizeSamlConfig cfgExtraTop).getD Json.undef) = false ∧
    handlerCore extDefault normalizeSamlConfig
      (postEvent "validate_saml_config" cfgExtraTop)
      = some (fail 400 "INVALID_ARGUMENT" "SAML config schema validation failed"
          (extDefault.renderSamlErrs
            ((normalizeSamlConfig cfgExtraTop).getD Json.undef))) := by
  have hu : UnknownKeyAt cfgExtraTop :=
    Or.inl ⟨[("id", Json.str "cfg1"), ("saml", sampleSaml),
      ("domains", Json.arr [sampleDomain]),
      ("created_at", Json.str "2024-01-01T00:00:00Z"),
      ("updated_at", Json.str "2024-01-01T00:00:00Z"),
      ("extra", Json.num 1)], "extra", Json.num 1, rfl, by simp, by decide⟩
  have hn : normalizeSamlConfig cfgExtraTop
      = some ((normalizeSamlConfig cfgExtraTop).getD Json.undef) := by rfl
  obtain ⟨hV, hH⟩ := closed_schema_rejects_unknown_keys extDefault cfgExtraTop
    ((normalizeSamlConfig cfgExtraTop).getD Json.undef) hu hn
  exact ⟨hu, ⟨_, hn⟩, hV, hH⟩

/-- C4 witness: normalizing `sampleCfg` succeeds, and normalizing the
result again returns it unchanged. -/
theorem normalizeSamlConfig_idem_witness :
    normalizeSamlConfig sampleCfg
      = some ((normalizeSamlConfig sampleCfg).getD Json.undef) ∧
    normalizeSamlConfig ((normalizeSamlConfig sampleCfg).getD Json.undef)
      = some ((normalizeSamlConfig sampleCfg).getD Json.undef) :=
  ⟨by rfl, normalizeSamlConfig_idem (x := sampleCfg) (by rfl)⟩
